import Mathlib

/-!
Verification of the solar-RAG document chunking and indexing pipeline.

The definitions below are a shallow embedding of the Python source:
`chunker.py` (sentence splitting, `chunk_text`, `detect_sections`,
`chunk_by_sections`, `chunk_table_content`, `chunk_image_content`),
`vector_store.py` (`add_chunks` with corruption-triggered reset/retry) and
`rag_system.py` (`process_document` input validation).  Strings are modelled
as Lean `String` (a list of characters, matching Python unicode strings);
Python `dict`s keyed by page number or section number are modelled as
association lists preserving insertion order, which is Python dict order.
-/

namespace SolarRAG

/-- Whitespace characters recognised by Python's `\s` regex class and
`str.strip()` in the ASCII range (the source only ever meets ASCII input). -/
def isPySpace (c : Char) : Bool :=
  c = ' ' || c = '\t' || c = '\n' || c = '\r' || c = '\x0b' || c = '\x0c'

/-- Sentence-final punctuation of the lookbehind `(?<=[.!?])` in
`re.split(r'(?<=[.!?])\s+', text)` (chunker.py line 19). -/
def isSentencePunct (c : Char) : Bool :=
  c = '.' || c = '!' || c = '?'

/-- Python `str.strip()` on the ASCII whitespace class. -/
def pyStrip (s : String) : String :=
  String.mk (((s.data.dropWhile isPySpace).reverse.dropWhile isPySpace).reverse)

/-- Python `str.lower()` (ASCII case folding suffices for the inputs used). -/
def pyLower (s : String) : String :=
  String.mk (s.data.map Char.toLower)

/-- Python `'\n'.join(l)`-style join with an arbitrary separator
(also covers `' '.join` and `'\n\n'.join` from chunker.py). -/
def strJoinSep (sep : String) : List String → String
  | [] => ""
  | [s] => s
  | s :: rest => s ++ sep ++ strJoinSep sep rest

/-- Python `''.join(l)`. -/
def strJoin (l : List String) : String :=
  strJoinSep "" l

/-- Helper for `splitOnChar`: accumulates the current piece reversed. -/
def splitOnCharAux (sep : Char) : List Char → List Char → List String
  | [], acc => [String.mk acc.reverse]
  | c :: rest, acc =>
    if c = sep then String.mk acc.reverse :: splitOnCharAux sep rest []
    else splitOnCharAux sep rest (c :: acc)

/-- Python `text.split('\n')` (chunker.py lines 124, 260). -/
def splitLines (s : String) : List String :=
  splitOnCharAux '\n' s.data []

/-- Worker for `re.split(r'(?<=[.!?])\s+', text)`.  `acc` is the current
piece reversed; `inRun` records that we are inside the whitespace run of a
match (the run is consumed entirely, `\s+` being greedy).  A run starts at a
whitespace character whose predecessor — the head of `acc` — is one of
`. ! ?`; no run can start at offset 0 because the lookbehind needs a
preceding character. -/
def splitSentencesAux : List Char → List Char → Bool → List (List Char)
  | [], acc, _ => [acc.reverse]
  | c :: rest, acc, true =>
    if isPySpace c then splitSentencesAux rest acc true
    else splitSentencesAux rest [c] false
  | c :: rest, acc, false =>
    if isPySpace c && (match acc with | p :: _ => isSentencePunct p | [] => false) then
      acc.reverse :: splitSentencesAux rest [] true
    else splitSentencesAux rest (c :: acc) false

/-- Python `re.split(r'(?<=[.!?])\s+', text)` (chunker.py line 19). -/
def sentences (text : String) : List String :=
  (splitSentencesAux text.data [] false).map String.mk

/-- State of the sentence-accumulation loop of `Chunker.chunk_text`
(chunker.py lines 21-23): emitted chunks, current buffer, `current_length`. -/
structure ChunkState where
  chunks : List String
  buf : List String
  len : Nat
deriving Repr, DecidableEq

/-- Python list slice `l[i:]` (used as `current_chunk[-overlap//50:]`).
A negative start counts from the end, clamped at 0; a non-negative start
drops that many elements. -/
def pySliceFrom (i : Int) (l : List α) : List α :=
  if i < 0 then l.drop (l.length - min (-i).toNat l.length)
  else l.drop i.toNat

/-- Start index of the tail-overlap slice: Python `-overlap//50` parses as
`(-overlap)//50`, floor division, i.e. minus the ceiling of `overlap/50`. -/
def overlapSliceStart (overlap : Nat) : Int :=
  Int.fdiv (-(overlap : Int)) 50

/-- The tail-overlap carry of `Chunker.chunk_text` (chunker.py line 33):
`' '.join(current_chunk[-overlap//50:]) if len(current_chunk) > overlap//50
else current_chunk[-1]`. -/
def chunkOverlapText (overlap : Nat) (buf : List String) : String :=
  if buf.length > overlap / 50 then
    strJoinSep " " (pySliceFrom (overlapSliceStart overlap) buf)
  else buf.getLastD ""

/-- One iteration of the `for sentence in sentences` loop of
`Chunker.chunk_text` (chunker.py lines 25-38), faithful to buffer emission,
tail-overlap seeding (with the falsy-empty-string guard on `overlap_text`)
and the `current_length` bookkeeping. -/
def chunkStep (chunk_size overlap : Nat) (st : ChunkState) (sentence : String) : ChunkState :=
  if st.len + sentence.length > chunk_size ∧ st.buf ≠ [] then
    let overlap_text := chunkOverlapText overlap st.buf
    let newBuf := if overlap_text ≠ "" then [overlap_text, sentence] else [sentence]
    { chunks := st.chunks ++ [strJoinSep " " st.buf], buf := newBuf,
      len := (strJoinSep " " newBuf).length }
  else
    { chunks := st.chunks, buf := st.buf ++ [sentence],
      len := st.len + sentence.length + 1 }

/-- Python `Chunker.chunk_text(text, chunk_size, overlap)` (chunker.py
lines 14-44): sentence split, greedy accumulation with overlap seeding,
final flush of a non-empty buffer. -/
def chunk_text (text : String) (chunk_size : Nat) (overlap : Nat) : List String :=
  let st := (sentences text).foldl (chunkStep chunk_size overlap) ⟨[], [], 0⟩
  if st.buf ≠ [] then st.chunks ++ [strJoinSep " " st.buf] else st.chunks

example : sentences "A. B. C." = ["A.", "B.", "C."] := by decide
example : sentences "" = [""] := by decide
example : sentences "a.  b" = ["a.", "b"] := by decide
example : sentences "a. " = ["a.", ""] := by decide
example : chunk_text "A. B. C." 100 200 = ["A. B. C."] := by decide
example : chunk_text "ab. cd. ef." 5 100 = ["ab.", "ab. cd.", "cd. ef."] := by decide
example : chunk_text "" 1000 200 = [""] := by decide
example : chunk_text "abc. abc. abc. abc. abc." 10 0 =
    ["abc. abc.", "abc. abc. abc.", "abc. abc. abc. abc.", "abc. abc. abc. abc. abc."] := by
  decide
example : chunk_text "abcd. abcd. abcd." 5 100 = ["abcd.", "abcd. abcd.", "abcd. abcd."] := by
  decide

/-- Python `\d` (ASCII range, sufficient for every input the program meets). -/
def isPyDigit (c : Char) : Bool := c.isDigit

/-- Character class `[A-Z]` under `re.IGNORECASE`: `detect_sections` passes
`re.IGNORECASE` to `re.match` for every pattern (chunker.py line 128), so
`[A-Z]` matches lower-case letters as well. -/
def isLetterCI (c : Char) : Bool :=
  ('A' ≤ c && c ≤ 'Z') || ('a' ≤ c && c ≤ 'z')

/-- Tail of heading pattern (1), `\s+(.+?)(?:\n|$)` after the section number:
at least one whitespace character, then the lazy title group which — the
input being a single line without `'\n'` — extends to the end of the string.
If only whitespace remains, the regex engine backtracks `\s+` by one
character and the title group captures that final whitespace character. -/
def matchTitleAfterNum (num : List Char) (rest : List Char) :
    Option (List Char × List Char) :=
  let ws := rest.takeWhile isPySpace
  let tl := rest.dropWhile isPySpace
  if ws = [] then none
  else if tl ≠ [] then some (num, tl)
  else some (num, [ws.getLastD ' '])

/-- Heading pattern (1), `^(\d+\.\d+(?:\.\d+)?)\s+(.+?)(?:\n|$)` (chunker.py
line 119).  The optional `(?:\.\d+)?` is deterministic here: when the
character after `<major>.<minor>` is a dot, the no-sub-number alternative
would require whitespace at that dot and fail, so the sub-number must parse. -/
def matchP1 (cs : List Char) : Option (List Char × List Char) :=
  let d1 := cs.takeWhile isPyDigit
  let r1 := cs.dropWhile isPyDigit
  if d1 = [] then none
  else
    match r1 with
    | '.' :: r2 =>
      let d2 := r2.takeWhile isPyDigit
      let r3 := r2.dropWhile isPyDigit
      if d2 = [] then none
      else
        match r3 with
        | '.' :: r4 =>
          let d3 := r4.takeWhile isPyDigit
          let r5 := r4.dropWhile isPyDigit
          if d3 = [] then none
          else matchTitleAfterNum (d1 ++ '.' :: d2 ++ '.' :: d3) r5
        | _ => matchTitleAfterNum (d1 ++ '.' :: d2) r3
    | _ => none

/-- Tail of heading pattern (2), `\s*:?\s*(.+?)(?:\n|$)` after the section
number: optional whitespace, optional colon, optional whitespace, then a
non-empty lazy title running to the end of the line.  When taking the colon
leaves nothing for the title, the engine backtracks: first the whitespace
after the colon (title = final whitespace character), then the colon itself
(title starts at the colon). -/
def matchP2Tail (rest : List Char) : Option (List Char) :=
  let a := rest.dropWhile isPySpace
  match a with
  | [] => if rest = [] then none else some [rest.getLastD ' ']
  | ':' :: restA =>
    let b := restA.dropWhile isPySpace
    if b ≠ [] then some b
    else if restA ≠ [] then some [restA.getLastD ' ']
    else some a
  | _ => some a

/-- Section-number part of pattern (2), `(\d+\.\d+(?:\.\d+)?)` followed by
`matchP2Tail`.  Unlike pattern (1), when the sub-number parses but the tail
then fails the engine backtracks to the two-component number, as in
`"Section 1.2.3"` where it matches with number `"1.2"` and title `".3"`. -/
def matchP2Num (cs : List Char) : Option (List Char × List Char) :=
  let d1 := cs.takeWhile isPyDigit
  let r1 := cs.dropWhile isPyDigit
  if d1 = [] then none
  else
    match r1 with
    | '.' :: r2 =>
      let d2 := r2.takeWhile isPyDigit
      let r3 := r2.dropWhile isPyDigit
      if d2 = [] then none
      else
        match r3 with
        | '.' :: r4 =>
          let d3 := r4.takeWhile isPyDigit
          let r5 := r4.dropWhile isPyDigit
          if d3 = [] then
            (matchP2Tail r3).map (fun t => (d1 ++ '.' :: d2, t))
          else
            match matchP2Tail r5 with
            | some t => some (d1 ++ '.' :: d2 ++ '.' :: d3, t)
            | none => (matchP2Tail r3).map (fun t => (d1 ++ '.' :: d2, t))
        | _ => (matchP2Tail r3).map (fun t => (d1 ++ '.' :: d2, t))
    | _ => none

/-- Heading pattern (2), `^Section\s+(\d+\.\d+(?:\.\d+)?)\s*:?\s*(.+?)(?:\n|$)`
with `re.IGNORECASE` on the literal `Section` (chunker.py line 120). -/
def matchP2 (cs : List Char) : Option (List Char × List Char) :=
  if (cs.take 7).map Char.toLower = "section".data then
    let rest := cs.drop 7
    let ws := rest.takeWhile isPySpace
    if ws = [] then none
    else matchP2Num (rest.dropWhile isPySpace)
  else none

/-- Heading pattern (3), `^(\d+)\s+([A-Z][^\n]+?)(?:\n|$)` (chunker.py
line 121): digits, whitespace, a letter (case-insensitive because of the
`re.IGNORECASE` flag), then at least one further non-newline character, the
lazy group running to the first newline or the end. -/
def matchP3 (cs : List Char) : Option (List Char × List Char) :=
  let d := cs.takeWhile isPyDigit
  let r1 := cs.dropWhile isPyDigit
  if d = [] then none
  else
    let ws := r1.takeWhile isPySpace
    let r2 := r1.dropWhile isPySpace
    if ws = [] then none
    else
      match r2 with
      | c :: t =>
        if isLetterCI c then
          let tl := t.takeWhile (fun x => x ≠ '\n')
          if tl = [] then none else some (d, c :: tl)
        else none
      | [] => none

/-- The `for pattern in section_patterns` loop of `Chunker.detect_sections`
(chunker.py lines 127-138): the three patterns are tried in order on the
stripped line and the first match wins. -/
def matchLine (line : String) : Option (List Char × List Char) :=
  match matchP1 line.data with
  | some r => some r
  | none =>
    match matchP2 line.data with
    | some r => some r
    | none => matchP3 line.data

/-- A detected heading as recorded by `Chunker.detect_sections` (chunker.py
lines 132-137): dict keys `number`, `title`, `line_index`, `full_match`. -/
structure Section where
  number : String
  title : String
  line_index : Nat
  full_match : String
deriving Repr, DecidableEq

/-- Line scan of `Chunker.detect_sections`, carrying the running line index. -/
def detectAux : Nat → List String → List Section
  | _, [] => []
  | i, l :: rest =>
    match matchLine (pyStrip l) with
    | some nt =>
      { number := String.mk nt.1, title := pyStrip (String.mk nt.2),
        line_index := i, full_match := pyStrip l } :: detectAux (i + 1) rest
    | none => detectAux (i + 1) rest

/-- Python `Chunker.detect_sections(text)` (chunker.py lines 113-140). -/
def detect_sections (text : String) : List Section :=
  detectAux 0 (splitLines text)

example : detect_sections "5.3 Energy Storage" =
    [⟨"5.3", "Energy Storage", 0, "5.3 Energy Storage"⟩] := by decide
example : detect_sections "Section 5.3: Energy" =
    [⟨"5.3", "Energy", 0, "Section 5.3: Energy"⟩] := by decide
example : detect_sections "SECTION 5.3 Energy" =
    [⟨"5.3", "Energy", 0, "SECTION 5.3 Energy"⟩] := by decide
example : detect_sections "5 INTRODUCTION" =
    [⟨"5", "INTRODUCTION", 0, "5 INTRODUCTION"⟩] := by decide
example : detect_sections "5 introduction" =
    [⟨"5", "introduction", 0, "5 introduction"⟩] := by decide
example : detect_sections "5 A" = [] := by decide
example : detect_sections "plain text only" = [] := by decide
example : detect_sections "" = [] := by decide
example : detect_sections "intro\n5.3 Title\nbody" =
    [⟨"5.3", "Title", 1, "5.3 Title"⟩] := by decide
example : detect_sections "Section 1.2.3" = [⟨"1.2", ".3", 0, "Section 1.2.3"⟩] := by decide
example : detect_sections "1.2.3.4 Title" = [] := by decide

/-- One extraction record: an element of the `content['text']`,
`content['tables']` or `content['images']` lists handed to the chunker, with
the fields the chunking logic reads (`page`, `content`; the `dataframe` and
`metadata` dict entries are only copied through and are not modelled). -/
structure RawItem where
  page : Nat
  content : String
deriving Repr, DecidableEq

/-- The `content` dict argument of `Chunker.chunk_by_sections` /
`Chunker.chunk_all`. -/
structure Content where
  text : List RawItem
  tables : List RawItem
  images : List RawItem
deriving Repr, DecidableEq

/-- Insert into an ascending list, for `sorted(all_pages)`. -/
def insertSorted (n : Nat) : List Nat → List Nat
  | [] => [n]
  | m :: ms => if n ≤ m then n :: m :: ms else m :: insertSorted n ms

/-- Ascending sort of a list of page numbers. -/
def sortNat (l : List Nat) : List Nat :=
  l.foldr insertSorted []

/-- The distinct pages of the content, i.e. the key set of `page_content`
(= the set `all_pages`, chunker.py lines 149-175). -/
def allPages (c : Content) : List Nat :=
  ((c.text ++ c.tables ++ c.images).map RawItem.page).dedup

/-- Python `sorted(all_pages)` (chunker.py lines 180, 203). -/
def sortedPages (c : Content) : List Nat :=
  sortNat (allPages c)

/-- Python `page_content[p]['text']`: the text records of page `p`, in
extraction order (the grouping loop appends in list order). -/
def textsOn (c : Content) (p : Nat) : List RawItem :=
  c.text.filter (fun it => it.page = p)

/-- Python `page_content[p]['tables']`. -/
def tablesOn (c : Content) (p : Nat) : List RawItem :=
  c.tables.filter (fun it => it.page = p)

/-- Python `page_content[p]['images']`. -/
def imagesOn (c : Content) (p : Nat) : List RawItem :=
  c.images.filter (fun it => it.page = p)

/-- Python `'\n\n'.join([item['content'] for item in page_content[p]['text']])`
(chunker.py lines 181, 207). -/
def pageText (c : Content) (p : Nat) : String :=
  strJoinSep "\n\n" ((textsOn c p).map RawItem.content)

/-- Value of the global `section_map` (chunker.py line 178): keys `title`,
`start_page`, `end_page`, `pages`. -/
structure SectionInfo where
  title : String
  start_page : Nat
  end_page : Nat
  pages : List Nat
deriving Repr, DecidableEq

/-- Update the value at a key of an insertion-ordered association list
in place, mirroring a Python dict item assignment. -/
def assocUpdate (k : String) (f : SectionInfo → SectionInfo) :
    List (String × SectionInfo) → List (String × SectionInfo)
  | [] => []
  | (k2, v) :: rest =>
    if k2 = k then (k2, f v) :: rest else (k2, v) :: assocUpdate k f rest

/-- Python `key in dict`. -/
def assocHas (k : String) (m : List (String × SectionInfo)) : Bool :=
  m.any (fun kv => kv.1 = k)

/-- Python `dict[key]` lookup. -/
def assocGet (k : String) (m : List (String × SectionInfo)) : Option SectionInfo :=
  (m.find? (fun kv => kv.1 = k)).map (fun kv => kv.2)

/-- Processing of one detected heading in the first pass (chunker.py
lines 184-198): create the section entry at page `p`, or extend the existing
entry's `end_page`/`pages`. -/
def sectionMapStep (p : Nat) (sm : List (String × SectionInfo)) (s : Section) :
    List (String × SectionInfo) :=
  if s.number = "" then sm
  else if assocHas s.number sm then
    assocUpdate s.number
      (fun info =>
        { info with end_page := p,
                    pages := if p ∈ info.pages then info.pages else info.pages ++ [p] }) sm
  else sm ++ [(s.number, ⟨s.title, p, p, [p]⟩)]

/-- First pass of `Chunker.chunk_by_sections` (chunker.py lines 177-198):
detect all sections across all pages and track their page ranges. -/
def buildSectionMap (c : Content) : List (String × SectionInfo) :=
  (sortedPages c).foldl
    (fun sm p => (detect_sections (pageText c p)).foldl (sectionMapStep p) sm) []

/-- Chunk type tags used by `chunk_by_sections`. -/
inductive ChunkType
  | text
  | mixed
  | table
  | image
deriving Repr, DecidableEq

/-- An output chunk of the assembler, with the metadata fields the claims
read (`section_number`, `section_title`, `section_based`, `has_tables`;
`none` models an absent dict key). -/
structure Chunk where
  type : ChunkType
  page : Nat
  content : String
  chunk_index : Nat
  total_chunks : Nat
  sectionNumber : Option String := none
  sectionTitle : Option String := none
  sectionBased : Bool := false
  hasTables : Option Bool := none
deriving Repr, DecidableEq

/-- The literal table suffix `f"\n\nTable:\n{t['content']}"` (chunker.py
lines 240, 307, 380). -/
def tableSuffix (t : RawItem) : String :=
  "\n\nTable:\n" ++ t.content

/-- Tables attributed to a page on which no sections were detected
(chunker.py lines 217-232): if the global section map holds a section whose
`pages` contain this page and whose `start_page` precedes it, take the tables
of this page and of the next page; otherwise (also when that yields nothing)
fall back to the page's own tables. -/
def noSectionTables (c : Content) (smap : List (String × SectionInfo)) (p : Nat) :
    List RawItem :=
  let cont := smap.any (fun kv => decide (p ∈ kv.2.pages) && decide (kv.2.start_page < p))
  let sts :=
    if cont then
      (if p ∈ allPages c then tablesOn c p else []) ++
      (if p + 1 ∈ allPages c then tablesOn c (p + 1) else [])
    else []
  if sts = [] then tablesOn c p else sts

/-- Construction of one chunk of a no-section page (chunker.py lines
235-256): the attributed tables are appended to the last text chunk only,
and the chunk type is `mixed` exactly when this is the last chunk and the
page's own table list is non-empty (note the source tests
`page_data['tables']` here, not the attributed `section_tables`). -/
def noSecChunkMk (p total : Nat) (sts pageTabs : List RawItem) (it : Nat × String) :
    Chunk :=
  let idx := it.1
  let isLast := idx = total - 1
  { type := if ¬(isLast ∧ pageTabs ≠ []) then ChunkType.text else ChunkType.mixed,
    page := p,
    content := if isLast ∧ sts ≠ [] then it.2 ++ strJoin (sts.map tableSuffix) else it.2,
    chunk_index := idx,
    total_chunks := total,
    sectionBased := false,
    hasTables := some (decide (isLast ∧ pageTabs ≠ [])) }

/-- The no-sections branch of the per-page loop (chunker.py lines 212-256). -/
def noSectionChunks (c : Content) (smap : List (String × SectionInfo)) (p : Nat) :
    List Chunk :=
  let tcs := chunk_text (pageText c p) 1000 200
  tcs.enum.map (noSecChunkMk p tcs.length (noSectionTables c smap p) (tablesOn c p))

/-- Pairing of each detected section with its body text: the Python loop
(chunker.py lines 265-351) takes, for each section, the lines from its own
heading line up to (excluding) the next heading line, the last section
running to the end of the page. -/
def sectionBodiesGo (lines : List String) (cur : Section) :
    List Section → List (Section × String)
  | [] => [(cur, strJoinSep "\n" (lines.drop cur.line_index))]
  | nxt :: rest =>
    (cur, strJoinSep "\n"
        ((lines.drop cur.line_index).take (nxt.line_index - cur.line_index))) ::
      sectionBodiesGo lines nxt rest

/-- Section/body pairs of a page; text before the first heading is discarded
(the Python loop starts with `current_section = None`). -/
def sectionBodies (lines : List String) : List Section → List (Section × String)
  | [] => []
  | s :: rest => sectionBodiesGo lines s rest

/-- Tables attributed to a detected section (chunker.py lines 277-293 and
356-371, identical logic): the tables of every page in the section's global
`pages` list, falling back — when the section number is not in the global map
— to the tables of the current page and the next page. -/
def sectionTablesFor (c : Content) (smap : List (String × SectionInfo)) (p : Nat)
    (num : String) : List RawItem :=
  match assocGet num smap with
  | some info =>
    info.pages.flatMap (fun q => if q ∈ allPages c then tablesOn c q else [])
  | none =>
    (tablesOn c p).filter (fun t => t.page = p) ++
      (if p + 1 ∈ allPages c then tablesOn c (p + 1) else [])

/-- Chunks emitted for one section/body pair (chunker.py lines 269-342 for
sections followed by another heading — `standalone := true` enables the
tables-only fallback of lines 326-342 — and lines 350-396 for the final
section of a page, which has no such fallback).  A body that is empty after
stripping contributes nothing; otherwise the stripped body is chunked, the
heading line `f"Section {number} {title}"` is prepended to every chunk, the
section's tables are appended to the last chunk (joined with `"\n\n"`), and
that chunk's type is `mixed` when tables exist. -/
def sectionBodyChunks (c : Content) (smap : List (String × SectionInfo)) (p : Nat)
    (standalone : Bool) (s : Section) (body : String) : List Chunk :=
  if pyStrip body = "" then []
  else
    let tcs := chunk_text (pyStrip body) 1000 200
    let sts := sectionTablesFor c smap p s.number
    let heading := "Section " ++ s.number ++ " " ++ s.title
    (tcs.enum.map fun it =>
      let idx := it.1
      let isLast := idx = tcs.length - 1
      let parts := [heading, it.2] ++
        (if isLast ∧ sts ≠ [] then sts.map tableSuffix else [])
      { type := if sts ≠ [] ∧ isLast then ChunkType.mixed else ChunkType.text,
        page := p,
        content := strJoinSep "\n\n" parts,
        chunk_index := idx,
        total_chunks := tcs.length,
        sectionNumber := some s.number,
        sectionTitle := some s.title,
        sectionBased := true }) ++
    (if standalone ∧ tcs = [] ∧ sts ≠ [] then
        sts.map (fun t =>
          { type := ChunkType.table, page := p, content := t.content,
            chunk_index := 0, total_chunks := 1,
            sectionNumber := some s.number, sectionTitle := some s.title,
            sectionBased := true })
      else [])

/-- The sections branch of the per-page loop (chunker.py lines 257-396). -/
def sectionsChunks (c : Content) (smap : List (String × SectionInfo)) (p : Nat)
    (secs : List Section) : List Chunk :=
  let pairs := sectionBodies (splitLines (pageText c p)) secs
  pairs.dropLast.flatMap (fun sb => sectionBodyChunks c smap p true sb.1 sb.2) ++
    (match pairs.getLast? with
     | some sb => sectionBodyChunks c smap p false sb.1 sb.2
     | none => [])

/-- Image chunk construction (chunker.py lines 398-411). -/
def imageChunkMk (p : Nat) (img : RawItem) : Chunk :=
  { type := ChunkType.image, page := p, content := img.content,
    chunk_index := 0, total_chunks := 1, sectionBased := false }

/-- All chunks emitted for one page of the second pass (chunker.py lines
203-411): the no-sections or the sections branch, followed by the page's
image chunks. -/
def pageChunks (c : Content) (smap : List (String × SectionInfo)) (p : Nat) :
    List Chunk :=
  let secs := detect_sections (pageText c p)
  (if secs = [] then noSectionChunks c smap p else sectionsChunks c smap p secs) ++
    (imagesOn c p).map (imageChunkMk p)

/-- Python `Chunker.chunk_by_sections(content)` (chunker.py lines 142-413). -/
def chunk_by_sections (c : Content) : List Chunk :=
  (sortedPages c).flatMap (pageChunks c (buildSectionMap c))

/-- Python `Chunker.chunk_table_content` (chunker.py lines 91-111): one
chunk per table record, `chunk_index` 0 and `total_chunks` 1. -/
def chunk_table_content (tables : List RawItem) : List Chunk :=
  tables.map (fun t =>
    { type := ChunkType.table, page := t.page, content := t.content,
      chunk_index := 0, total_chunks := 1 })

/-- Python `Chunker.chunk_image_content` (chunker.py lines 70-89). -/
def chunk_image_content (images : List RawItem) : List Chunk :=
  images.map (fun img =>
    { type := ChunkType.image, page := img.page, content := img.content,
      chunk_index := 0, total_chunks := 1 })

example :
    chunk_by_sections ⟨[⟨1, "Hello world. More text."⟩], [⟨1, "T1"⟩], [⟨1, "IMG"⟩]⟩ =
      [⟨ChunkType.mixed, 1, "Hello world. More text.\n\nTable:\nT1", 0, 1,
          none, none, false, some true⟩,
       ⟨ChunkType.image, 1, "IMG", 0, 1, none, none, false, none⟩] := by decide

example :
    chunk_by_sections ⟨[⟨1, "1.1 Alpha\n2.2 Beta\nMore body follows here."⟩],
        [⟨1, "T1"⟩], []⟩ =
      [⟨ChunkType.mixed, 1, "Section 1.1 Alpha\n\n1.1 Alpha\n\n\n\nTable:\nT1", 0, 1,
          some "1.1", some "Alpha", true, none⟩,
       ⟨ChunkType.mixed, 1,
          "Section 2.2 Beta\n\n2.2 Beta\nMore body follows here.\n\n\n\nTable:\nT1", 0, 1,
          some "2.2", some "Beta", true, none⟩] := by decide

example :
    chunk_by_sections ⟨[], [⟨3, "T3"⟩], []⟩ =
      [⟨ChunkType.mixed, 3, "\n\nTable:\nT3", 0, 1, none, none, false, some true⟩] := by
  decide

example :
    chunk_by_sections ⟨[⟨1, "5.3 Storage\nBody one."⟩, ⟨2, "5.3 Storage\nBody two."⟩,
        ⟨3, "Continuation text only."⟩], [⟨2, "T2"⟩, ⟨3, "T3"⟩], [⟨2, "I2"⟩]⟩ =
      [⟨ChunkType.mixed, 1, "Section 5.3 Storage\n\n5.3 Storage\nBody one.\n\n\n\nTable:\nT2",
          0, 1, some "5.3", some "Storage", true, none⟩,
       ⟨ChunkType.mixed, 2, "Section 5.3 Storage\n\n5.3 Storage\nBody two.\n\n\n\nTable:\nT2",
          0, 1, some "5.3", some "Storage", true, none⟩,
       ⟨ChunkType.image, 2, "I2", 0, 1, none, none, false, none⟩,
       ⟨ChunkType.mixed, 3, "Continuation text only.\n\nTable:\nT3", 0, 1,
          none, none, false, some true⟩] := by decide

/-- List starts-with test (used for Python's substring operator `in`). -/
def listStartsWith [DecidableEq α] : List α → List α → Bool
  | [], _ => true
  | _ :: _, [] => false
  | a :: as, b :: bs => a = b && listStartsWith as bs

/-- Substring occurrence test: Python `needle in hay`. -/
def listHasSub [DecidableEq α] (needle : List α) : List α → Bool
  | [] => listStartsWith needle []
  | l@(_ :: rest) => listStartsWith needle l || listHasSub needle rest

/-- Python `needle in hay` on strings. -/
def strContains (hay needle : String) : Bool :=
  listHasSub needle.data hay.data

/-- Corruption test of `VectorStore.add_chunks` (vector_store.py line 96):
`"compaction" in str(e).lower() or "metadata" in str(e).lower()`. -/
def isCorruptMsg (e : String) : Bool :=
  strContains (pyLower e) "compaction" || strContains (pyLower e) "metadata"

example : isCorruptMsg "Compaction failed" = true := by decide
example : isCorruptMsg "METADATA segment error" = true := by decide
example : isCorruptMsg "disk full" = false := by decide

/-- A chunk as handed to `VectorStore.add_chunks`: content, embedding (kept
abstract — its values never influence control flow) and the metadata fields
the method reads.  `E` abstracts the embedding vector type. -/
structure VChunk (E : Type) where
  content : String
  embedding : E
  ctype : String
  page : Nat
  chunk_index : Nat
  total_chunks : Nat

/-- One row written to the ChromaDB collection by `add_chunks`: id,
embedding, stored document text and metadata. -/
structure BatchRow (E : Type) where
  id : String
  embedding : E
  document : String
  ctype : String
  page : Nat
  chunk_index : Nat
  total_chunks : Nat

/-- The batch-building loop of `add_chunks` (vector_store.py lines 59-83):
one fresh id per chunk (ids are produced by `uuid.uuid4()`; they are modelled
as a supplied stream `ids`, zipped in order), the stored document truncated
to 10,000 characters, and the metadata dict assembled from the chunk. -/
def buildBatch {E : Type} (ids : List String) (chunks : List (VChunk E)) :
    List (BatchRow E) :=
  (ids.zip chunks).map (fun ic =>
    { id := ic.1,
      embedding := ic.2.embedding,
      document := if ic.2.content.length > 10000
        then String.mk (ic.2.content.data.take 10000) else ic.2.content,
      ctype := ic.2.ctype,
      page := ic.2.page,
      chunk_index := ic.2.chunk_index,
      total_chunks := ic.2.total_chunks })

/-- Outcome of one `self.collection.add(...)` call of the underlying store;
the store is external (ChromaDB), so whether a given attempt raises — and
with which message — is an oracle input of the model. -/
inductive AddOutcome
  | success
  | failure (msg : String)
deriving Repr, DecidableEq

/-- Effect of one underlying `collection.add` call: on success the batch is
appended to the collection, on failure the exception message is raised. -/
def collAdd {E : Type} (outcome : AddOutcome) (coll : List (BatchRow E))
    (batch : List (BatchRow E)) : Except String (List (BatchRow E)) :=
  match outcome with
  | AddOutcome.success => Except.ok (coll ++ batch)
  | AddOutcome.failure m => Except.error m

/-- Python `VectorStore.add_chunks` (vector_store.py lines 57-113): build the
batch once, try `collection.add`; if it raises with a corruption message,
delete the on-disk database (`_reset_database`), recreate an empty collection
and retry the same add exactly once; any other exception propagates with the
collection untouched, and a failing retry propagates leaving the reset, empty
collection.  The returned pair is (raised-or-ok result, final collection
state). -/
def add_chunks {E : Type} (first retry : AddOutcome) (coll : List (BatchRow E))
    (ids : List String) (chunks : List (VChunk E)) :
    Except String (List (BatchRow E)) × List (BatchRow E) :=
  let batch := buildBatch ids chunks
  match collAdd first coll batch with
  | Except.ok coll2 => (Except.ok coll2, coll2)
  | Except.error e =>
    if isCorruptMsg e then
      match collAdd retry [] batch with
      | Except.ok coll2 => (Except.ok coll2, coll2)
      | Except.error e2 => (Except.error e2, [])
    else (Except.error e, coll)

/-- Error outcomes of `RAGSystem.process_document` input validation. -/
inductive DocErr
  | fileMissing
  | unsupported (ext : String)
deriving Repr, DecidableEq

/-- Python `os.path.basename`: the part after the last `'/'`. -/
def pyBasename (p : String) : String :=
  String.mk (p.data.reverse.takeWhile (fun c => c ≠ '/')).reverse

/-- Extension component of Python `os.path.splitext(name)[1]`: everything
from the last dot on, provided some non-dot character precedes that dot
(leading dots of a basename never start an extension). -/
def pySplitextExt (name : String) : String :=
  let rev := name.data.reverse
  let extc := rev.takeWhile (fun c => c ≠ '.')
  if extc.length = rev.length then ""
  else
    let before := rev.drop (extc.length + 1)
    if before.any (fun c => c ≠ '.') then String.mk ('.' :: extc.reverse) else ""

example : pySplitextExt "doc.PDF" = ".PDF" := by decide
example : pySplitextExt ".bashrc" = "" := by decide
example : pySplitextExt "a.tar.gz" = ".gz" := by decide
example : pySplitextExt "noext" = "" := by decide

/-- The supported-type test of `process_document` (rag_system.py lines
50-57): `.pdf`, `.xlsx`, `.xls`. -/
def supportedExt (ext : String) : Bool :=
  ext = ".pdf" || ext = ".xlsx" || ext = ".xls"

/-- Python `RAGSystem.process_document(file_path, clear_existing)`
(rag_system.py lines 27-108), modelled up to its input validation: the
filesystem is the predicate `fsHas`, the vector collection is a list of
entries, `clear_collection` empties it, and the whole downstream pipeline
(extraction, chunking, embedding, `add_chunks`) of a supported file is the
opaque state transformer `pipeline`, since the claim under verification only
concerns what happens before it runs.  The order of operations follows the
source: existence check (line 34), `clear_collection` when requested
(line 44), then the extension dispatch (lines 50-57).  The result pairs the
outcome with the final collection state. -/
def process_document (fsHas : String → Bool) (pipeline : List String → List String)
    (path : String) (clear_existing : Bool) (st : List String) :
    Except DocErr (List String) × List String :=
  if fsHas path = false then (Except.error DocErr.fileMissing, st)
  else
    let ext := pyLower (pySplitextExt (pyBasename path))
    let st1 := if clear_existing then [] else st
    if supportedExt ext then (Except.ok (pipeline st1), pipeline st1)
    else (Except.error (DocErr.unsupported ext), st1)

/-- Invariant of the `chunk_text` accumulation loop, for the corrected size
bound `B` over sentence list `sents`: all emitted chunks are bounded by `B`,
the joined buffer is bounded by `B` and by the tracked `current_length`, and
every buffer element except possibly the first — together with the last
element — is a genuine input sentence. -/
def chunkInv (B : Nat) (sents : List String) (st : ChunkState) : Prop :=
  (∀ ch ∈ st.chunks, ch.length ≤ B) ∧
  (strJoinSep " " st.buf).length ≤ B ∧
  (strJoinSep " " st.buf).length ≤ st.len ∧
  (∀ x ∈ st.buf.tail, x ∈ sents) ∧
  (st.buf = [] ∨ st.buf.getLastD "" ∈ sents)

/-- Body of a section as the specification describes it. Modelled from the
spec: "split the page text at each heading's line offset into a sequence of
section bodies", read as the text strictly between a heading's line and the
next heading's line. -/
def specSectionBody (lines : List String) (curIdx nxtIdx : Nat) : String :=
  strJoinSep "\n" ((lines.drop (curIdx + 1)).take (nxtIdx - (curIdx + 1)))

/-- Floor division of a negated natural by 50 equals minus the ceiling:
this makes precise what Python's slice start `-overlap//50` computes (note
it is the ceiling of `overlap/50`, while the length guard on the same line
uses the floor `overlap//50`). -/
theorem overlapSliceStart_eq (ov : Nat) :
    overlapSliceStart ov = -(((ov + 49) / 50 : Nat) : Int) := by
  unfold overlapSliceStart
  cases ov with
  | zero => decide
  | succ k =>
    have h1 : -((k + 1 : Nat) : Int) = Int.negSucc k := by
      simp [Int.negSucc_eq]
    rw [h1]
    have h2 : Int.fdiv (Int.negSucc k) 50 = Int.negSucc (k / 50) := rfl
    rw [h2]
    have h3 : (k + 1 + 49) / 50 = k / 50 + 1 := by
      have := Nat.add_div_right k (show 0 < 50 by norm_num)
      omega
    rw [h3, Int.negSucc_eq]
    push_cast
    ring

/-- The Python slice `current_chunk[-overlap//50:]` keeps the last
`⌈overlap/50⌉` elements (all of them when the buffer is shorter). -/
theorem pySlice_overlap (ov : Nat) (l : List String) (hov : 1 ≤ ov) :
    pySliceFrom (overlapSliceStart ov) l = l.drop (l.length - (ov + 49) / 50) := by
  rw [overlapSliceStart_eq]
  have hk : 1 ≤ (ov + 49) / 50 := by
    rw [Nat.le_div_iff_mul_le (by norm_num : 0 < 50)]
    omega
  unfold pySliceFrom
  have hneg : -(((ov + 49) / 50 : Nat) : Int) < 0 := by
    omega
  rw [if_pos hneg]
  have htn : (-(-(((ov + 49) / 50 : Nat) : Int))).toNat = (ov + 49) / 50 := by
    omega
  rw [htn]
  congr 1
  omega

/-- C9: `chunk_text` is deterministic — two invocations on equal inputs with
the same `(chunk_size, overlap)` return identical lists of chunks.  In the
embedding this is immediate because the source function reads no state
outside its arguments (chunker.py lines 14-44 use no randomness, no globals
and no I/O), which is exactly what its translation into a pure function
records. -/
theorem chunk_text_deterministic (text1 text2 : String) (chunk_size overlap : Nat)
    (h : text1 = text2) :
    chunk_text text1 chunk_size overlap = chunk_text text2 chunk_size overlap := by
  rw [h]

/-- Witness for C9 at a concrete input. -/
theorem chunk_text_deterministic_witness :
    chunk_text "A. B. C." 10 100 = chunk_text "A. B. C." 10 100 :=
  chunk_text_deterministic "A. B. C." "A. B. C." 10 100 rfl

/-- C2 counterexample: with `chunk_size = 5` and `overlap = 100`
(`overlap/50 = 2`), the step that processes `"ef."` finds the buffer holding
exactly two sentences `["ab.", "cd."]`; the claim says both are carried into
the new buffer, but the source guard `len(current_chunk) > overlap//50`
(chunker.py line 33) is strict, so only the last sentence `"cd."` is carried
and the final chunk of `chunk_text "ab. cd. ef." 5 100` is `"cd. ef."`, not
`"ab. cd. ef."`. -/
theorem chunk_text_overlap_exact_counterexample :
    chunkStep 5 100 ⟨["ab."], ["ab.", "cd."], 7⟩ "ef." =
      ⟨["ab.", "ab. cd."], ["cd.", "ef."], 7⟩ ∧
    (["ab.", "cd."] : List String).length = 100 / 50 ∧
    chunk_text "ab. cd. ef." 5 100 = ["ab.", "ab. cd.", "cd. ef."] ∧
    (chunk_text "ab. cd. ef." 5 100).getD 2 "" ≠ "ab. cd. ef." := by
  decide

/-- C2 amended: at an overflow (buffer non-empty and adding the sentence
would exceed `chunk_size`), the buffer is emitted joined by spaces, and the
new buffer is seeded with a carry followed by the triggering sentence, an
empty (falsy) carry being dropped.  The carry is: the last buffer element
alone when the buffer holds at most `⌊overlap/50⌋` elements — in particular
a buffer of exactly `overlap/50` sentences carries only its last one —;
otherwise, for `overlap ≥ 1`, the last `⌈overlap/50⌉` elements joined into
a single string (Python's slice start `-overlap//50` is minus the ceiling
while the guard compares against the floor); and for `overlap = 0` the
slice `current_chunk[-0//50:]` is the whole list, so the entire emitted
buffer is carried. -/
theorem chunk_text_overlap_seed_rule (chunk_size overlap : Nat) (st : ChunkState)
    (s : String) (hov : st.len + s.length > chunk_size) (hbuf : st.buf ≠ []) :
    (chunkStep chunk_size overlap st s).chunks =
      st.chunks ++ [strJoinSep " " st.buf] ∧
    (st.buf.length ≤ overlap / 50 →
      (chunkStep chunk_size overlap st s).buf =
        if st.buf.getLastD "" ≠ "" then [st.buf.getLastD "", s] else [s]) ∧
    (1 ≤ overlap → overlap / 50 < st.buf.length →
      (chunkStep chunk_size overlap st s).buf =
        (let ot := strJoinSep " "
            (st.buf.drop (st.buf.length - (overlap + 49) / 50))
         if ot ≠ "" then [ot, s] else [s])) ∧
    (overlap = 0 →
      (chunkStep chunk_size overlap st s).buf =
        (let ot := strJoinSep " " st.buf
         if ot ≠ "" then [ot, s] else [s])) := by
  refine ⟨?_, ?_, ?_, ?_⟩
  · simp [chunkStep, chunkOverlapText, hov, hbuf]
  · intro hle
    have hgt : ¬ st.buf.length > overlap / 50 := by omega
    simp [chunkStep, chunkOverlapText, hov, hbuf, hgt]
  · intro h1 h2
    simp only [chunkStep, if_pos (And.intro hov hbuf), chunkOverlapText, if_pos h2,
      pySlice_overlap overlap st.buf h1]
  · intro h0
    subst h0
    have hg : st.buf.length > 0 / 50 := by
      simpa using List.length_pos.mpr hbuf
    have hsl : pySliceFrom (overlapSliceStart 0) st.buf = st.buf := by
      have hz : overlapSliceStart 0 = 0 := by decide
      rw [hz]
      unfold pySliceFrom
      norm_num
    simp only [chunkStep, if_pos (And.intro hov hbuf), chunkOverlapText, if_pos hg, hsl]

/-- Witness for C2's amended seeding rule at a concrete state. -/
theorem chunk_text_overlap_seed_rule_witness :
    (chunkStep 5 100 ⟨["ab."], ["ab.", "cd."], 7⟩ "ef.").buf = ["cd.", "ef."] := by
  have h := (chunk_text_overlap_seed_rule 5 100 ⟨["ab."], ["ab.", "cd."], 7⟩ "ef."
    (by decide) (by decide)).2.1 (by decide)
  simpa using h

/-- C6 counterexample: the source passes `re.IGNORECASE` to every pattern
(chunker.py line 128), so pattern (3) `^(\d+)\s+([A-Z][^\n]+?)(?:\n|$)` does
match the lower-case line `"5 introduction"` — the claim says it is not
recognized.  Patterns (1) and (2) do not match, so the heading comes from
pattern (3). -/
theorem detect_sections_lowercase_counterexample :
    detect_sections "5 introduction" =
      [⟨"5", "introduction", 0, "5 introduction"⟩] ∧
    matchP1 "5 introduction".data = none ∧
    matchP2 "5 introduction".data = none ∧
    matchP3 "5 introduction".data = some ("5".data, "introduction".data) := by
  decide

/-- C7 counterexample: with `clear_existing = True` and an existing file of
unsupported type `.txt`, `process_document` raises the unsupported-type
error only after `clear_collection` has run (rag_system.py line 46 precedes
line 57), so the previously stored entry is gone — the claim says the
existing collection is not cleared when the call fails with an
unsupported-type error. -/
theorem process_document_clear_counterexample :
    process_document (fun q => q == "doc.txt") id "doc.txt" true ["entry1"] =
      (Except.error (DocErr.unsupported ".txt"), []) ∧
    ([] : List String) ≠ ["entry1"] := by
  exact ⟨rfl, by decide⟩

/-- C7 amended: `process_document` fails before any index mutation for a
missing file; for an unsupported document type it fails before any data is
added, but after the `clear_existing` step — when `clear_existing` is true
the collection has already been cleared by the time the unsupported-type
error is raised. -/
theorem process_document_input_validation (fsHas : String → Bool)
    (pipeline : List String → List String) (path : String)
    (clear_existing : Bool) (st : List String) :
    (fsHas path = false →
      process_document fsHas pipeline path clear_existing st =
        (Except.error DocErr.fileMissing, st)) ∧
    (fsHas path = true →
      supportedExt (pyLower (pySplitextExt (pyBasename path))) = false →
      process_document fsHas pipeline path clear_existing st =
        (Except.error (DocErr.unsupported (pyLower (pySplitextExt (pyBasename path)))),
          if clear_existing then [] else st)) := by
  constructor
  · intro h
    simp [process_document, h]
  · intro h1 h2
    simp [process_document, h1, h2]

/-- Witness for C7's amended validation order at a concrete input. -/
theorem process_document_input_validation_witness :
    process_document (fun _ => true) id "a/b.docx" false ["e1"] =
      (Except.error (DocErr.unsupported ".docx"), ["e1"]) := by
  have h := (process_document_input_validation (fun _ => true) id "a/b.docx"
    false ["e1"]).2 rfl (by decide)
  simpa using h

/-- C8: batch writes of `add_chunks` (vector_store.py lines 85-113).  If the
underlying `collection.add` raises with a message containing `"compaction"`
or `"metadata"` case-insensitively, the on-disk index is deleted, an empty
collection is recreated, and the very same batch (ids, embeddings,
documents, metadata rows, built once before the first attempt) is added
exactly once more; a succeeding retry leaves exactly that batch in the fresh
collection.  A non-corruption exception propagates with the collection
untouched, and a failing retry propagates leaving the reset, empty
collection. -/
theorem add_chunks_corruption_policy {E : Type} (first retry : AddOutcome)
    (coll : List (BatchRow E)) (ids : List String) (chunks : List (VChunk E)) :
    (first = AddOutcome.success →
      add_chunks first retry coll ids chunks =
        (Except.ok (coll ++ buildBatch ids chunks), coll ++ buildBatch ids chunks)) ∧
    (∀ m, first = AddOutcome.failure m → isCorruptMsg m = true →
      retry = AddOutcome.success →
      add_chunks first retry coll ids chunks =
        (Except.ok (buildBatch ids chunks), buildBatch ids chunks)) ∧
    (∀ m m2, first = AddOutcome.failure m → isCorruptMsg m = true →
      retry = AddOutcome.failure m2 →
      add_chunks first retry coll ids chunks = (Except.error m2, [])) ∧
    (∀ m, first = AddOutcome.failure m → isCorruptMsg m = false →
      add_chunks first retry coll ids chunks = (Except.error m, coll)) := by
  refine ⟨?_, ?_, ?_, ?_⟩
  · intro h
    simp [add_chunks, collAdd, h]
  · intro m h1 h2 h3
    simp [add_chunks, collAdd, h1, h2, h3]
  · intro m m2 h1 h2 h3
    simp [add_chunks, collAdd, h1, h2, h3]
  · intro m h1 h2
    simp [add_chunks, collAdd, h1, h2]

/-- Witness for C8 at a concrete corruption message and batch. -/
theorem add_chunks_corruption_policy_witness :
    @add_chunks Unit (AddOutcome.failure "Compaction error: metadata segment")
      AddOutcome.success [⟨"old", (), "olddoc", "text", 1, 0, 1⟩] ["id1"]
      [⟨"newdoc", (), "table", 2, 0, 1⟩] =
      (Except.ok (buildBatch ["id1"] [⟨"newdoc", (), "table", 2, 0, 1⟩]),
        buildBatch ["id1"] [⟨"newdoc", (), "table", 2, 0, 1⟩]) := by
  exact (add_chunks_corruption_policy (AddOutcome.failure "Compaction error: metadata segment")
    AddOutcome.success [⟨"old", (), "olddoc", "text", 1, 0, 1⟩] ["id1"]
    [⟨"newdoc", (), "table", 2, 0, 1⟩]).2.1 "Compaction error: metadata segment"
    rfl (by decide) rfl

/-- The sentence splitter always returns at least one piece (Python's
`re.split` never returns an empty list). -/
theorem splitSentencesAux_ne_nil (cs : List Char) :
    ∀ (acc : List Char) (b : Bool), splitSentencesAux cs acc b ≠ [] := by
  induction cs with
  | nil =>
    intro acc b
    simp [splitSentencesAux]
  | cons c rest ih =>
    intro acc b
    cases b with
    | true =>
      by_cases h : isPySpace c = true
      · simp [splitSentencesAux, h]
        exact ih acc true
      · simp [splitSentencesAux, h]
        exact ih [c] false
    | false =>
      unfold splitSentencesAux
      split
      · simp
      · exact ih (c :: acc) false

/-- Python `re.split(r'(?<=[.!?])\s+', text)` yields at least one sentence. -/
theorem sentences_ne_nil (text : String) : sentences text ≠ [] := by
  unfold sentences
  simp
  exact splitSentencesAux_ne_nil text.data [] false

/-- Each loop iteration of `chunk_text` leaves a non-empty buffer. -/
theorem chunkStep_buf_ne_nil (chunk_size overlap : Nat) (st : ChunkState) (s : String) :
    (chunkStep chunk_size overlap st s).buf ≠ [] := by
  by_cases h : st.len + s.length > chunk_size ∧ st.buf ≠ []
  · simp only [chunkStep, if_pos h]
    split <;> simp
  · simp only [chunkStep, if_neg h]
    simp

/-- After folding at least one sentence (or starting from a non-empty
buffer), the buffer is non-empty. -/
theorem foldl_chunkStep_buf_ne_nil (chunk_size overlap : Nat) :
    ∀ (l : List String) (st : ChunkState), l ≠ [] ∨ st.buf ≠ [] →
      (l.foldl (chunkStep chunk_size overlap) st).buf ≠ [] := by
  intro l
  induction l with
  | nil =>
    intro st h
    exact h.resolve_left (by simp)
  | cons s rest ih =>
    intro st _
    exact ih (chunkStep chunk_size overlap st s)
      (Or.inr (chunkStep_buf_ne_nil chunk_size overlap st s))

/-- `chunk_text` never returns the empty list. -/
theorem chunk_text_ne_nil (text : String) (chunk_size overlap : Nat) :
    chunk_text text chunk_size overlap ≠ [] := by
  unfold chunk_text
  have hbuf := foldl_chunkStep_buf_ne_nil chunk_size overlap (sentences text)
    ⟨[], [], 0⟩ (Or.inl (sentences_ne_nil text))
  simp only [if_pos hbuf]
  simp

/-- Membership in an association-list update: every entry is an original
entry or the image of an original entry with the same key under `f`. -/
theorem mem_assocUpdate (k : String) (f : SectionInfo → SectionInfo)
    (m : List (String × SectionInfo)) (kv : String × SectionInfo)
    (h : kv ∈ assocUpdate k f m) :
    kv ∈ m ∨ ∃ kv2, kv2 ∈ m ∧ kv = (kv2.1, f kv2.2) := by
  induction m with
  | nil => simp [assocUpdate] at h
  | cons kv0 rest ih =>
    unfold assocUpdate at h
    by_cases hk : kv0.1 = k
    · rw [if_pos hk] at h
      rcases List.mem_cons.mp h with h1 | h1
      · exact Or.inr ⟨kv0, List.mem_cons_self kv0 rest, h1⟩
      · exact Or.inl (List.mem_cons_of_mem kv0 h1)
    · rw [if_neg hk] at h
      rcases List.mem_cons.mp h with h1 | h1
      · exact Or.inl (h1 ▸ List.mem_cons_self kv0 rest)
      · rcases ih h1 with h2 | ⟨kv2, hkv2, hkv2e⟩
        · exact Or.inl (List.mem_cons_of_mem kv0 h2)
        · exact Or.inr ⟨kv2, List.mem_cons_of_mem kv0 hkv2, hkv2e⟩

/-- A page recorded in some entry of the section map after one
`sectionMapStep` at page `p` was already recorded, or is `p` itself. -/
theorem sectionMapStep_pages (p : Nat) (sm : List (String × SectionInfo))
    (s : Section) (kv : String × SectionInfo) (q : Nat)
    (hkv : kv ∈ sectionMapStep p sm s) (hq : q ∈ kv.2.pages) :
    (∃ kv2 ∈ sm, q ∈ kv2.2.pages) ∨ q = p := by
  unfold sectionMapStep at hkv
  by_cases h0 : s.number = ""
  · rw [if_pos h0] at hkv
    exact Or.inl ⟨kv, hkv, hq⟩
  · rw [if_neg h0] at hkv
    by_cases h1 : assocHas s.number sm = true
    · rw [if_pos h1] at hkv
      rcases mem_assocUpdate s.number _ sm kv hkv with h2 | ⟨kv2, hkv2, hkv2e⟩
      · exact Or.inl ⟨kv, h2, hq⟩
      · rw [hkv2e] at hq
        simp only at hq
        by_cases h3 : p ∈ kv2.2.pages
        · rw [if_pos h3] at hq
          exact Or.inl ⟨kv2, hkv2, hq⟩
        · rw [if_neg h3] at hq
          rcases List.mem_append.mp hq with h4 | h4
          · exact Or.inl ⟨kv2, hkv2, h4⟩
          · simp at h4
            exact Or.inr h4
    · rw [if_neg h1] at hkv
      rcases List.mem_append.mp hkv with h2 | h2
      · exact Or.inl ⟨kv, h2, hq⟩
      · simp at h2
        rw [h2] at hq
        simp at hq
        exact Or.inr hq

/-- Invariant carried through the inner fold of the first pass: every page
in the map was seen with a non-empty detection result. -/
theorem sectionMap_inner_inv (P : Nat → Prop) (p : Nat) (secs : List Section)
    (hp : secs ≠ [] → P p) :
    ∀ (sm : List (String × SectionInfo)),
      (∀ kv ∈ sm, ∀ q ∈ kv.2.pages, P q) →
      ∀ kv ∈ secs.foldl (sectionMapStep p) sm, ∀ q ∈ kv.2.pages, P q := by
  induction secs with
  | nil =>
    intro sm hsm
    simpa using hsm
  | cons s rest ih =>
    intro sm hsm
    simp only [List.foldl_cons]
    have hPp : P p := hp (by simp)
    refine ih (fun _ => hPp) (sectionMapStep p sm s) ?_
    intro kv hkv q hq
    rcases sectionMapStep_pages p sm s kv q hkv hq with ⟨kv2, hkv2, hq2⟩ | h2
    · exact hsm kv2 hkv2 q hq2
    · exact h2 ▸ hPp

/-- Every page appearing in some `pages` list of the global section map is a
page on which `detect_sections` found at least one heading. -/
theorem buildSectionMap_pages (c : Content) :
    ∀ kv ∈ buildSectionMap c, ∀ q ∈ kv.2.pages,
      detect_sections (pageText c q) ≠ [] := by
  unfold buildSectionMap
  have main : ∀ (ps : List Nat) (sm : List (String × SectionInfo)),
      (∀ kv ∈ sm, ∀ q ∈ kv.2.pages, detect_sections (pageText c q) ≠ []) →
      ∀ kv ∈ ps.foldl
          (fun sm2 p => (detect_sections (pageText c p)).foldl (sectionMapStep p) sm2) sm,
        ∀ q ∈ kv.2.pages, detect_sections (pageText c q) ≠ [] := by
    intro ps
    induction ps with
    | nil =>
      intro sm hsm
      simpa using hsm
    | cons p rest ih =>
      intro sm hsm
      simp only [List.foldl_cons]
      refine ih _ ?_
      exact sectionMap_inner_inv (fun q => detect_sections (pageText c q) ≠ []) p
        (detect_sections (pageText c p)) (fun hne => hne) sm hsm
  exact main (sortedPages c) [] (by simp)

/-- On a page where no sections were detected, the section-continuation scan
of the no-sections branch finds nothing (such a page can never appear in the
global section map) and the attributed tables are exactly the page's own
tables. -/
theorem noSectionTables_eq (c : Content) (p : Nat)
    (h : detect_sections (pageText c p) = []) :
    noSectionTables c (buildSectionMap c) p = tablesOn c p := by
  unfold noSectionTables
  have hany : ((buildSectionMap c).any
      (fun kv => decide (p ∈ kv.2.pages) && decide (kv.2.start_page < p))) = false := by
    rw [List.any_eq_false]
    intro kv hkv
    simp only [Bool.and_eq_true, decide_eq_true_eq, not_and]
    intro hmem
    exact absurd h (buildSectionMap_pages c kv hkv p hmem)
  simp [hany]

/-- On a page with no detected sections, the assembler's output is the text
chunks of the page with the page's own tables attached to the last chunk,
followed by the page's image chunks. -/
theorem pageChunks_noSection (c : Content) (p : Nat)
    (h : detect_sections (pageText c p) = []) :
    pageChunks c (buildSectionMap c) p =
      (chunk_text (pageText c p) 1000 200).enum.map
          (noSecChunkMk p (chunk_text (pageText c p) 1000 200).length
            (tablesOn c p) (tablesOn c p)) ++
        (imagesOn c p).map (imageChunkMk p) := by
  unfold pageChunks noSectionChunks
  rw [h]
  simp [noSectionTables_eq c p h]

/-- C1: on every page with no detected sections, the tables attributed to
the page context are exactly the page's own tables — the carried-table scan
can never fire, because a page enters a section's `pages` list only when a
heading was detected on it (first conjunct) — and each of them is appended
as a literal `"\n\nTable:\n<table text>"` suffix to the last text chunk
only, that chunk's type becoming `mixed` exactly when tables were appended
(second and third conjuncts; `noSecChunkMk` receives `tablesOn c p` both as
the attributed tables and as the page tables that drive the type flip). -/
theorem no_section_page_table_attachment (c : Content) (p : Nat)
    (_hp : p ∈ sortedPages c) (h : detect_sections (pageText c p) = []) :
    (∀ kv ∈ buildSectionMap c, ¬(p ∈ kv.2.pages ∧ kv.2.start_page < p)) ∧
    pageChunks c (buildSectionMap c) p =
      (chunk_text (pageText c p) 1000 200).enum.map
          (noSecChunkMk p (chunk_text (pageText c p) 1000 200).length
            (tablesOn c p) (tablesOn c p)) ++
        (imagesOn c p).map (imageChunkMk p) ∧
    (∀ (total : Nat) (it : Nat × String),
      (noSecChunkMk p total (tablesOn c p) (tablesOn c p) it).type =
        (if it.1 = total - 1 ∧ tablesOn c p ≠ [] then ChunkType.mixed
          else ChunkType.text) ∧
      (noSecChunkMk p total (tablesOn c p) (tablesOn c p) it).content =
        (if it.1 = total - 1 ∧ tablesOn c p ≠ []
          then it.2 ++ strJoin ((tablesOn c p).map tableSuffix) else it.2)) := by
  refine ⟨?_, pageChunks_noSection c p h, ?_⟩
  · intro kv hkv
    rintro ⟨hmem, _⟩
    exact absurd h (buildSectionMap_pages c kv hkv p hmem)
  · intro total it
    by_cases hl : it.1 = total - 1 ∧ tablesOn c p ≠ []
    · simp [noSecChunkMk, hl]
    · simp [noSecChunkMk, hl]

/-- Witness for C1: a one-page document without headings, holding one table
and one image, assembles into one `mixed` chunk carrying the table suffix
plus one image chunk. -/
theorem no_section_page_table_attachment_witness :
    pageChunks ⟨[⟨1, "Hello world. More text."⟩], [⟨1, "T1"⟩], [⟨1, "IMG"⟩]⟩
        (buildSectionMap ⟨[⟨1, "Hello world. More text."⟩], [⟨1, "T1"⟩], [⟨1, "IMG"⟩]⟩) 1 =
      [⟨ChunkType.mixed, 1, "Hello world. More text.\n\nTable:\nT1", 0, 1,
          none, none, false, some true⟩,
        ⟨ChunkType.image, 1, "IMG", 0, 1, none, none, false, none⟩] := by
  have h := (no_section_page_table_attachment
    ⟨[⟨1, "Hello world. More text."⟩], [⟨1, "T1"⟩], [⟨1, "IMG"⟩]⟩ 1
    (by decide) (by decide)).2.1
  exact h.trans (by decide)

/-- C10: `chunk_text` never returns an empty list, even on the empty string
(first and second conjuncts); consequently a section body that is non-empty
after stripping yields at least one chunk (third conjunct), and a page with
tables but no text still yields one final chunk of empty text onto which the
tables are appended, the chunk type flipping to `mixed` (fourth conjunct). -/
theorem chunk_text_never_empty :
    (∀ (text : String) (chunk_size overlap : Nat),
      chunk_text text chunk_size overlap ≠ []) ∧
    (∀ (chunk_size overlap : Nat), chunk_text "" chunk_size overlap = [""]) ∧
    (∀ (c : Content) (smap : List (String × SectionInfo)) (p : Nat)
        (standalone : Bool) (s : Section) (body : String),
      pyStrip body ≠ "" → sectionBodyChunks c smap p standalone s body ≠ []) ∧
    (∀ (c : Content) (p : Nat), textsOn c p = [] → tablesOn c p ≠ [] →
      pageChunks c (buildSectionMap c) p =
        { type := ChunkType.mixed, page := p,
          content := strJoin ((tablesOn c p).map tableSuffix),
          chunk_index := 0, total_chunks := 1, sectionBased := false,
          hasTables := some true } :: (imagesOn c p).map (imageChunkMk p)) := by
  refine ⟨fun text cs ov => chunk_text_ne_nil text cs ov, ?_, ?_, ?_⟩
  · intro cs ov
    have hs : sentences "" = [""] := rfl
    have hstep : chunkStep cs ov ⟨[], [], 0⟩ "" = ⟨[], [""], 1⟩ := by
      unfold chunkStep
      simp
    unfold chunk_text
    rw [hs]
    simp only [List.foldl_cons, List.foldl_nil, hstep]
    simp [strJoinSep]
  · intro c smap p standalone s body hb
    unfold sectionBodyChunks
    rw [if_neg hb]
    intro hcontra
    rcases List.append_eq_nil.mp hcontra with ⟨h1, _⟩
    have := chunk_text_ne_nil (pyStrip body) 1000 200
    rcases hx : chunk_text (pyStrip body) 1000 200 with _ | ⟨a, l⟩
    · exact this hx
    · rw [hx] at h1
      simp at h1
  · intro c p htext htab
    have hpt : pageText c p = "" := by
      unfold pageText
      rw [htext]
      rfl
    have hdet : detect_sections (pageText c p) = [] := by
      rw [hpt]
      decide
    rw [pageChunks_noSection c p hdet, hpt]
    have hct : chunk_text "" 1000 200 = [""] := by decide
    rw [hct]
    simp only [List.enum, List.enumFrom, List.map]
    simp [noSecChunkMk, htab]

/-- Witness for C10: non-emptiness at a concrete text, and the table-only
page of a concrete document producing the empty-text `mixed` chunk. -/
theorem chunk_text_never_empty_witness :
    chunk_text "Solar data sheet." 1000 200 ≠ [] ∧
    pageChunks ⟨[], [⟨3, "T3"⟩], []⟩ (buildSectionMap ⟨[], [⟨3, "T3"⟩], []⟩) 3 =
      [⟨ChunkType.mixed, 3, "\n\nTable:\nT3", 0, 1, none, none, false, some true⟩] := by
  constructor
  · exact (chunk_text_never_empty).1 "Solar data sheet." 1000 200
  · have h := (chunk_text_never_empty).2.2.2 ⟨[], [⟨3, "T3"⟩], []⟩ 3
      (by decide) (by decide)
    exact h.trans (by decide)

/-- Scanning an all-true prefix, `takeWhile` stops exactly at a failing
head of the remainder. -/
theorem takeWhile_append_cons (p : α → Bool) (l : List α) (b : α) (r : List α)
    (hl : ∀ a ∈ l, p a = true) (hb : p b = false) :
    (l ++ b :: r).takeWhile p = l := by
  induction l with
  | nil => simp [List.takeWhile_cons, hb]
  | cons a as ih =>
    have ha := hl a (by simp)
    simp only [List.cons_append, List.takeWhile_cons, ha, if_true]
    rw [ih (fun x hx => hl x (by simp [hx]))]

/-- Companion of `takeWhile_append_cons` for `dropWhile`. -/
theorem dropWhile_append_cons (p : α → Bool) (l : List α) (b : α) (r : List α)
    (hl : ∀ a ∈ l, p a = true) (hb : p b = false) :
    (l ++ b :: r).dropWhile p = b :: r := by
  induction l with
  | nil => simp [List.dropWhile_cons, hb]
  | cons a as ih =>
    have ha := hl a (by simp)
    simp only [List.cons_append, List.dropWhile_cons, ha, if_true]
    exact ih (fun x hx => hl x (by simp [hx]))

/-- Python digits are untouched by `str.lower()`. -/
theorem toLower_of_digit (c : Char) (h : isPyDigit c = true) : Char.toLower c = c := by
  unfold isPyDigit Char.isDigit at h
  simp only [Bool.and_eq_true, decide_eq_true_eq] at h
  unfold Char.toLower
  have h2 : Char.toNat c ≤ 57 := UInt32.toNat_le_of_le (by norm_num) h.2
  rw [if_neg (by omega)]

/-- A letter (either case) is not whitespace. -/
theorem isPySpace_of_letter (c : Char) (h : isLetterCI c = true) :
    isPySpace c = false := by
  unfold isLetterCI at h
  simp only [Bool.or_eq_true, Bool.and_eq_true, decide_eq_true_eq] at h
  have h65 : 65 ≤ Char.toNat c := by
    rcases h with ⟨h1, _⟩ | ⟨h1, _⟩
    · exact UInt32.le_toNat_of_le (by norm_num) h1
    · exact le_trans (by norm_num) (UInt32.le_toNat_of_le (by norm_num : 97 < UInt32.size) h1)
  unfold isPySpace
  simp only [Bool.or_eq_false_iff, decide_eq_false_iff_not]
  refine ⟨⟨⟨⟨⟨?_, ?_⟩, ?_⟩, ?_⟩, ?_⟩, ?_⟩ <;>
    (rintro rfl; revert h65; decide)

/-- C6 amended: heading recognition tries the three patterns in order and
stops at the first match (last conjunct); because `re.IGNORECASE` is applied
to every pattern, pattern (3) `^(\d+)\s+([A-Z][^\n]+?)(?:\n|$)` accepts a
title starting with a letter of either case: any line
`"<digits> <letter><rest>"` (rest non-empty, newline-free) is recognized by
pattern (3) with the digits as number and `"<letter><rest>"` as title, while
patterns (1) and (2) do not match such a line. -/
theorem detect_pattern_order_and_case (ds : List Char) (c0 : Char) (t : List Char)
    (hds : ds ≠ []) (hdig : ∀ d ∈ ds, isPyDigit d = true)
    (hc : isLetterCI c0 = true) (ht : t ≠ []) (hnl : ∀ x ∈ t, x ≠ '\n') :
    matchP1 (ds ++ ' ' :: c0 :: t) = none ∧
    matchP2 (ds ++ ' ' :: c0 :: t) = none ∧
    matchP3 (ds ++ ' ' :: c0 :: t) = some (ds, c0 :: t) ∧
    matchLine (String.mk (ds ++ ' ' :: c0 :: t)) = some (ds, c0 :: t) ∧
    (∀ (s : String) (r : List Char × List Char),
      matchP1 s.data = some r → matchLine s = some r) := by
  have htw := takeWhile_append_cons isPyDigit ds ' ' (c0 :: t) hdig (by decide)
  have hdw := dropWhile_append_cons isPyDigit ds ' ' (c0 :: t) hdig (by decide)
  have hcsp : isPySpace c0 = false := isPySpace_of_letter c0 hc
  have hP1 : matchP1 (ds ++ ' ' :: c0 :: t) = none := by
    unfold matchP1
    rw [htw, hdw, if_neg hds]
    split
    · simp_all
    · rfl
  have hP2 : matchP2 (ds ++ ' ' :: c0 :: t) = none := by
    obtain ⟨d0, ds2, rfl⟩ := List.exists_cons_of_ne_nil hds
    have hne : (((d0 :: ds2 ++ ' ' :: c0 :: t).take 7).map Char.toLower) ≠
        "section".data := by
      intro heq
      rw [List.cons_append, List.take_succ_cons, List.map_cons] at heq
      have h0 : Char.toLower d0 = 's' := by
        have := congrArg List.head? heq
        simpa using this
      rw [toLower_of_digit d0 (hdig d0 (by simp))] at h0
      exact absurd (h0 ▸ hdig d0 (by simp)) (by decide)
    unfold matchP2
    rw [if_neg hne]
  have hP3 : matchP3 (ds ++ ' ' :: c0 :: t) = some (ds, c0 :: t) := by
    unfold matchP3
    rw [htw, hdw, if_neg hds]
    have hsp : isPySpace ' ' = true := by decide
    have hws1 : (' ' :: c0 :: t).takeWhile isPySpace = [' '] := by
      simp [List.takeWhile_cons, hsp, hcsp]
    have hws2 : (' ' :: c0 :: t).dropWhile isPySpace = c0 :: t := by
      simp [List.dropWhile_cons, hsp, hcsp]
    rw [hws1, hws2]
    simp only [if_neg (by simp : ¬([' '] : List Char) = [])]
    have htl : t.takeWhile (fun x => x ≠ '\n') = t := by
      rw [List.takeWhile_eq_self_iff]
      intro x hx
      simpa using hnl x hx
    rw [hc]
    simp only [if_true, htl, if_neg ht]
  refine ⟨hP1, hP2, hP3, ?_, ?_⟩
  · unfold matchLine
    have hdata : (String.mk (ds ++ ' ' :: c0 :: t)).data = ds ++ ' ' :: c0 :: t := rfl
    rw [hdata, hP1, hP2, hP3]
  · intro s r h
    unfold matchLine
    rw [h]

/-- Witness for C6's amended recognition rule on the line
`"5 introduction"`. -/
theorem detect_pattern_order_and_case_witness :
    matchLine (String.mk ("5".data ++ ' ' :: 'i' :: "ntroduction".data)) =
      some ("5".data, 'i' :: "ntroduction".data) :=
  (detect_pattern_order_and_case "5".data 'i' "ntroduction".data
    (by decide) (by decide) (by decide) (by decide) (by decide)).2.2.2.1

/-- Characterization of detected sections: each records a line of the page
(at offset `line_index`, counted from the scan start `i`), its stripped text
as `full_match`, and a successful pattern match on that stripped text. -/
theorem detectAux_mem (ls : List String) :
    ∀ (i : Nat) (s : Section), s ∈ detectAux i ls →
      i ≤ s.line_index ∧
      ∃ l, ls[s.line_index - i]? = some l ∧ pyStrip l = s.full_match ∧
        matchLine s.full_match ≠ none := by
  induction ls with
  | nil =>
    intro i s h
    simp [detectAux] at h
  | cons l rest ih =>
    intro i s h
    unfold detectAux at h
    rcases hm : matchLine (pyStrip l) with _ | nt
    · rw [hm] at h
      obtain ⟨h1, l2, h2, h3, h4⟩ := ih (i + 1) s h
      refine ⟨by omega, l2, ?_, h3, h4⟩
      have hidx : s.line_index - i = (s.line_index - (i + 1)) + 1 := by omega
      rw [hidx, List.getElem?_cons_succ]
      exact h2
    · rw [hm] at h
      rcases List.mem_cons.mp h with h1 | h1
      · subst h1
        refine ⟨Nat.le_refl i, l, ?_, rfl, ?_⟩
        · simp
        · rw [hm]
          simp
      · obtain ⟨h1, l2, h2, h3, h4⟩ := ih (i + 1) s h1
        refine ⟨by omega, l2, ?_, h3, h4⟩
        have hidx : s.line_index - i = (s.line_index - (i + 1)) + 1 := by omega
        rw [hidx, List.getElem?_cons_succ]
        exact h2

/-- Detected sections appear in strictly increasing line order. -/
theorem detectAux_sorted (ls : List String) :
    ∀ (i : Nat), (detectAux i ls).Pairwise (fun a b => a.line_index < b.line_index) := by
  induction ls with
  | nil =>
    intro i
    simp [detectAux]
  | cons l rest ih =>
    intro i
    unfold detectAux
    rcases hm : matchLine (pyStrip l) with _ | nt
    · exact ih (i + 1)
    · refine List.Pairwise.cons ?_ (ih (i + 1))
      intro b hb
      have := (detectAux_mem rest (i + 1) b hb).1
      simp only
      omega

/-- A line whose stripped text matches a heading pattern strips to a
non-empty string (the matchers all require a leading digit or the word
`Section`). -/
theorem pyStrip_ne_of_matchLine (m : String) (h : matchLine m ≠ none) : m ≠ "" := by
  intro he
  rw [he] at h
  exact h rfl

/-- A string containing a non-whitespace character does not strip to the
empty string. -/
theorem pyStrip_ne_empty_of_mem (s : String) (c : Char) (hc : c ∈ s.data)
    (hns : isPySpace c = false) : pyStrip s ≠ "" := by
  intro h
  have hdata : (((s.data.dropWhile isPySpace).reverse.dropWhile isPySpace).reverse) = [] :=
    congrArg String.data h
  rw [List.reverse_eq_nil_iff, List.dropWhile_eq_nil_iff] at hdata
  have hall : ∀ x ∈ s.data.dropWhile isPySpace, isPySpace x = true := by
    intro x hx
    exact hdata x (List.mem_reverse.mpr hx)
  have hsplit : c ∈ s.data.takeWhile isPySpace ∨ c ∈ s.data.dropWhile isPySpace := by
    rw [← List.mem_append, List.takeWhile_append_dropWhile]
    exact hc
  rcases hsplit with h1 | h1
  · exact absurd (List.mem_takeWhile_imp h1) (by simp [hns])
  · exact absurd (hall c h1) (by simp [hns])

/-- A string strips to empty only if it is all whitespace, contrapositively:
a non-empty strip yields a non-whitespace character. -/
theorem exists_nonspace_of_pyStrip_ne (s : String) (h : pyStrip s ≠ "") :
    ∃ c ∈ s.data, isPySpace c = false := by
  by_contra hno
  push_neg at hno
  have hall : ∀ c ∈ s.data, isPySpace c = true := by
    intro c hc
    have := hno c hc
    simpa using this
  apply h
  unfold pyStrip
  rw [List.dropWhile_eq_nil_iff.mpr hall]
  rfl

/-- Characters of the first element survive a separator join. -/
theorem mem_data_strJoinSep_cons (sep : String) (l : String) (rest : List String)
    (c : Char) (hc : c ∈ l.data) : c ∈ (strJoinSep sep (l :: rest)).data := by
  cases rest with
  | nil => simpa [strJoinSep] using hc
  | cons r rs =>
    show c ∈ (l ++ sep ++ strJoinSep sep (r :: rs)).data
    simp only [String.data_append, List.mem_append]
    exact Or.inl (Or.inl hc)

/-- Bodies produced by `sectionBodiesGo` begin at their own heading line,
so their stripped text is never empty. -/
theorem sectionBodiesGo_strip (lines : List String) :
    ∀ (rest : List Section) (cur : Section),
      (∃ l, lines[cur.line_index]? = some l ∧ pyStrip l ≠ "") →
      (∀ s ∈ rest, ∃ l, lines[s.line_index]? = some l ∧ pyStrip l ≠ "") →
      (∀ s ∈ rest, cur.line_index < s.line_index) →
      rest.Pairwise (fun a b => a.line_index < b.line_index) →
      ∀ sb ∈ sectionBodiesGo lines cur rest, pyStrip sb.2 ≠ "" := by
  intro rest
  induction rest with
  | nil =>
    intro cur hcur _ _ _ sb hsb
    obtain ⟨l, hget, hne⟩ := hcur
    obtain ⟨hlt, heq⟩ := List.getElem?_eq_some_iff.mp hget
    simp only [sectionBodiesGo, List.mem_singleton] at hsb
    subst hsb
    obtain ⟨c, hc, hns⟩ := exists_nonspace_of_pyStrip_ne l hne
    refine pyStrip_ne_empty_of_mem _ c ?_ hns
    rw [List.drop_eq_getElem_cons hlt, heq]
    exact mem_data_strJoinSep_cons "\n" l _ c hc
  | cons nxt rest2 ih =>
    intro cur hcur hrest hlt hsorted sb hsb
    simp only [sectionBodiesGo, List.mem_cons] at hsb
    rcases hsb with hsb | hsb
    · obtain ⟨l, hget, hne⟩ := hcur
      obtain ⟨hltl, heq⟩ := List.getElem?_eq_some_iff.mp hget
      subst hsb
      obtain ⟨c, hc, hns⟩ := exists_nonspace_of_pyStrip_ne l hne
      refine pyStrip_ne_empty_of_mem _ c ?_ hns
      have hk : nxt.line_index - cur.line_index =
          (nxt.line_index - cur.line_index - 1) + 1 := by
        have := hlt nxt (by simp)
        omega
      rw [List.drop_eq_getElem_cons hltl, heq, hk, List.take_succ_cons]
      exact mem_data_strJoinSep_cons "\n" l _ c hc
    · refine ih nxt (hrest nxt (by simp)) (fun s hs => hrest s (by simp [hs]))
        ?_ (List.Pairwise.sublist (List.sublist_cons_self nxt rest2) hsorted) sb hsb
      intro s hs
      exact (List.pairwise_cons.mp hsorted).1 s hs

/-- C3 amended: the empty-body case is unreachable.  A detected section's
body, as the code computes it (chunker.py line 270: the slice starts at the
heading's own `line_index`), always contains the heading line, whose
stripped text matched a heading pattern and is non-empty — so every
section/body pair of the assembler strips to a non-empty string, the guard
`if section_text.strip()` always passes, and in particular the
standalone-table fallback for sections with zero text chunks (lines 326-342)
can never fire. -/
theorem section_bodies_never_empty (text : String) (sb : Section × String)
    (h : sb ∈ sectionBodies (splitLines text) (detect_sections text)) :
    pyStrip sb.2 ≠ "" := by
  unfold sectionBodies at h
  rcases hd : detect_sections text with _ | ⟨s0, rest⟩
  · rw [hd] at h
    simp at h
  · rw [hd] at h
    have hmem : ∀ s ∈ detect_sections text,
        ∃ l, (splitLines text)[s.line_index]? = some l ∧ pyStrip l ≠ "" := by
      intro s hs
      obtain ⟨_, l, hget, hstrip, hmatch⟩ := detectAux_mem (splitLines text) 0 s hs
      rw [Nat.sub_zero] at hget
      exact ⟨l, hget, by rw [hstrip]; exact pyStrip_ne_of_matchLine _ hmatch⟩
    have hsorted := detectAux_sorted (splitLines text) 0
    rw [show detectAux 0 (splitLines text) = detect_sections text from rfl, hd] at hsorted
    refine sectionBodiesGo_strip (splitLines text) rest s0
      (hmem s0 (by rw [hd]; simp)) (fun s hs => hmem s (by rw [hd]; simp [hs]))
      ?_ (List.pairwise_cons.mp hsorted).2 sb h
    intro s hs
    exact (List.pairwise_cons.mp hsorted).1 s hs

/-- Witness for C3's amended no-empty-body property: the section/body pair
of a heading immediately followed by another heading. -/
theorem section_bodies_never_empty_witness :
    pyStrip (⟨⟨"1.1", "Alpha", 0, "1.1 Alpha"⟩, "1.1 Alpha"⟩ : Section × String).2 ≠ "" := by
  refine section_bodies_never_empty "1.1 Alpha\n2.2 Beta\nMore body follows here."
    ⟨⟨"1.1", "Alpha", 0, "1.1 Alpha"⟩, "1.1 Alpha"⟩ ?_
  decide

/-- C3 counterexample: on the page `"1.1 Alpha\n2.2 Beta\nMore body follows
here."` with one table, section `"1.1"` has an empty body in the spec's
sense (nothing between its heading line 0 and the next heading line 1), yet
the assembler emits a text-derived (`mixed`) chunk for it — with the heading
text doubled and the table appended — and emits no standalone `table` chunk
at all; the claim requires no text chunks and a standalone table chunk. -/
theorem empty_section_body_counterexample :
    specSectionBody (splitLines "1.1 Alpha\n2.2 Beta\nMore body follows here.") 0 1 = "" ∧
    ((chunk_by_sections ⟨[⟨1, "1.1 Alpha\n2.2 Beta\nMore body follows here."⟩],
        [⟨1, "T1"⟩], []⟩).filter
      (fun ch => ch.sectionNumber = some "1.1" ∧ ch.type = ChunkType.mixed)).length = 1 ∧
    ((chunk_by_sections ⟨[⟨1, "1.1 Alpha\n2.2 Beta\nMore body follows here."⟩],
        [⟨1, "T1"⟩], []⟩).filter
      (fun ch => ch.type = ChunkType.table)).length = 0 := by
  refine ⟨by decide, by decide, by decide⟩

/-- Membership in an insertion-sorted list. -/
theorem mem_insertSorted (n : Nat) (l : List Nat) (a : Nat) :
    a ∈ insertSorted n l ↔ a = n ∨ a ∈ l := by
  induction l with
  | nil => simp [insertSorted]
  | cons m ms ih =>
    unfold insertSorted
    by_cases h : n ≤ m
    · simp [h]
    · simp only [if_neg h, List.mem_cons, ih]
      tauto

/-- Inserting a fresh element preserves `Nodup`. -/
theorem nodup_insertSorted (n : Nat) (l : List Nat) (h : l.Nodup) (hn : n ∉ l) :
    (insertSorted n l).Nodup := by
  induction l with
  | nil => simp [insertSorted]
  | cons m ms ih =>
    unfold insertSorted
    by_cases hle : n ≤ m
    · rw [if_pos hle]
      exact List.Nodup.cons (by simpa using hn) h
    · rw [if_neg hle]
      rcases List.nodup_cons.mp h with ⟨hm, hms⟩
      refine List.nodup_cons.mpr ⟨?_, ih hms (fun hx => hn (by simp [hx]))⟩
      rw [mem_insertSorted]
      rintro (rfl | hx)
      · exact hn (by simp)
      · exact hm hx

/-- Sorting preserves membership. -/
theorem mem_sortNat (l : List Nat) (a : Nat) : a ∈ sortNat l ↔ a ∈ l := by
  induction l with
  | nil => simp [sortNat]
  | cons m ms ih =>
    show a ∈ insertSorted m (sortNat ms) ↔ _
    rw [mem_insertSorted, ih]
    simp

/-- Sorting preserves `Nodup`. -/
theorem nodup_sortNat (l : List Nat) (h : l.Nodup) : (sortNat l).Nodup := by
  induction l with
  | nil => simp [sortNat]
  | cons m ms ih =>
    rcases List.nodup_cons.mp h with ⟨hm, hms⟩
    exact nodup_insertSorted m (sortNat ms) (ih hms)
      (fun hx => hm ((mem_sortNat ms m).mp hx))

/-- The page list of the assembler is duplicate-free. -/
theorem sortedPages_nodup (c : Content) : (sortedPages c).Nodup :=
  nodup_sortNat _ (List.nodup_dedup _)

/-- Every record's page occurs in the sorted page list. -/
theorem page_mem_sortedPages (c : Content) (x : RawItem) (h : x ∈ c.images) :
    x.page ∈ sortedPages c := by
  unfold sortedPages allPages
  rw [mem_sortNat, List.mem_dedup]
  exact List.mem_map_of_mem RawItem.page (by simp [h])

/-- Replacing the filtered list by a pre-filtered one does not change the
per-page filters for pages other than `k`. -/
theorem flatMap_filter_congr_ne (ks : List Nat) (l : List RawItem) (k : Nat)
    (hk : k ∉ ks) :
    ks.flatMap (fun q => l.filter (fun x => x.page = q)) =
      ks.flatMap (fun q =>
        (l.filter (fun x => ! decide (x.page = k))).filter (fun x => x.page = q)) := by
  induction ks with
  | nil => simp
  | cons q ks2 ih =>
    have hq : q ≠ k := fun h => hk (by simp [h])
    simp only [List.flatMap_cons]
    rw [ih (fun hx => hk (by simp [hx]))]
    congr 1
    rw [List.filter_filter]
    apply List.filter_congr
    intro x _
    by_cases hx : x.page = q
    · simp [hx, hq]
    · simp [hx]

/-- Binding the per-page filters over a duplicate-free covering page list
permutes the original record list. -/
theorem flatMap_filter_pages_perm (ks : List Nat) :
    ∀ (l : List RawItem), ks.Nodup → (∀ x ∈ l, x.page ∈ ks) →
      (ks.flatMap (fun k => l.filter (fun x => x.page = k))).Perm l := by
  induction ks with
  | nil =>
    intro l _ hcov
    have hl : l = [] := by
      cases l with
      | nil => rfl
      | cons x xs => exact absurd (hcov x (by simp)) (by simp)
    simp [hl]
  | cons k ks2 ih =>
    intro l hnd hcov
    rcases List.nodup_cons.mp hnd with ⟨hk, hnd2⟩
    simp only [List.flatMap_cons]
    rw [flatMap_filter_congr_ne ks2 l k hk]
    have hcov2 : ∀ x ∈ l.filter (fun x => ! decide (x.page = k)), x.page ∈ ks2 := by
      intro x hx
      rcases List.mem_filter.mp hx with ⟨hxl, hxp⟩
      rcases List.mem_cons.mp (hcov x hxl) with h1 | h1
      · exact absurd (by simpa using hxp) (by simp [h1])
      · exact h1
    have hperm := ih (l.filter (fun x => ! decide (x.page = k))) hnd2 hcov2
    exact List.Perm.trans (List.Perm.append_left _ hperm) (List.filter_append_perm _ l)

/-- A flatMap of per-page maps has the same length as the flatMap of the
underlying per-page lists. -/
theorem length_flatMap_map (ks : List Nat) (f : Nat → List RawItem)
    (g : Nat → RawItem → Chunk) :
    (ks.flatMap (fun p => (f p).map (g p))).length = (ks.flatMap f).length := by
  induction ks with
  | nil => simp
  | cons k ks2 ih => simp [ih]

/-- An `ite` between two non-image chunk types is not the image type. -/
theorem ite_chunktype_ne_image (c : Prop) [Decidable c] (a b : ChunkType)
    (ha : a ≠ ChunkType.image) (hb : b ≠ ChunkType.image) :
    (if c then a else b) ≠ ChunkType.image := by
  split
  · exact ha
  · exact hb

/-- Chunks of the no-sections branch are never image chunks. -/
theorem noSectionChunks_ne_image (c : Content) (smap : List (String × SectionInfo))
    (p : Nat) (ch : Chunk) (h : ch ∈ noSectionChunks c smap p) :
    ch.type ≠ ChunkType.image := by
  unfold noSectionChunks at h
  rcases List.mem_map.mp h with ⟨it, _, rfl⟩
  exact ite_chunktype_ne_image _ _ _ (by simp) (by simp)

/-- Chunks of one section body are never image chunks. -/
theorem sectionBodyChunks_ne_image (c : Content) (smap : List (String × SectionInfo))
    (p : Nat) (standalone : Bool) (s : Section) (body : String) (ch : Chunk)
    (h : ch ∈ sectionBodyChunks c smap p standalone s body) :
    ch.type ≠ ChunkType.image := by
  unfold sectionBodyChunks at h
  by_cases hb : pyStrip body = ""
  · rw [if_pos hb] at h
    simp at h
  · rw [if_neg hb] at h
    rcases List.mem_append.mp h with h1 | h1
    · rcases List.mem_map.mp h1 with ⟨it, _, rfl⟩
      exact ite_chunktype_ne_image _ _ _ (by simp) (by simp)
    · split at h1
      · rcases List.mem_map.mp h1 with ⟨t, _, rfl⟩
        simp
      · simp at h1

/-- Chunks of the sections branch are never image chunks. -/
theorem sectionsChunks_ne_image (c : Content) (smap : List (String × SectionInfo))
    (p : Nat) (secs : List Section) (ch : Chunk)
    (h : ch ∈ sectionsChunks c smap p secs) : ch.type ≠ ChunkType.image := by
  unfold sectionsChunks at h
  rcases List.mem_append.mp h with h1 | h1
  · rcases List.mem_flatMap.mp h1 with ⟨sb, _, hmem⟩
    exact sectionBodyChunks_ne_image c smap p true sb.1 sb.2 ch hmem
  · rcases hl : (sectionBodies (splitLines (pageText c p)) secs).getLast? with _ | sb
    · rw [hl] at h1
      simp at h1
    · rw [hl] at h1
      exact sectionBodyChunks_ne_image c smap p false sb.1 sb.2 ch h1

/-- The image chunks of one page are exactly one chunk per image record. -/
theorem pageChunks_filter_image (c : Content) (smap : List (String × SectionInfo))
    (p : Nat) :
    (pageChunks c smap p).filter (fun ch => ch.type = ChunkType.image) =
      (imagesOn c p).map (imageChunkMk p) := by
  unfold pageChunks
  rw [List.filter_append]
  have h1 : ((if detect_sections (pageText c p) = [] then noSectionChunks c smap p
      else sectionsChunks c smap p (detect_sections (pageText c p))).filter
        (fun ch => ch.type = ChunkType.image)) = [] := by
    rw [List.filter_eq_nil_iff]
    intro ch hch
    split at hch
    · simpa using noSectionChunks_ne_image c smap p ch hch
    · simpa using sectionsChunks_ne_image c smap p _ ch hch
  have h2 : ((imagesOn c p).map (imageChunkMk p)).filter
      (fun ch => ch.type = ChunkType.image) = (imagesOn c p).map (imageChunkMk p) := by
    rw [List.filter_eq_self]
    intro ch hch
    rcases List.mem_map.mp hch with ⟨img, _, rfl⟩
    simp [imageChunkMk]
  rw [h1, h2, List.nil_append]

/-- C4 counterexample: on a page holding two sections and one table, the
table's rendered content appears in two distinct chunks (both sections
attribute it), and the output contains no `table`-typed chunk at all — so a
table record neither yields exactly one chunk nor appears in only one. -/
theorem table_one_chunk_counterexample :
    ((chunk_by_sections ⟨[⟨1, "1.1 Alpha\n2.2 Beta\nSolar body text."⟩],
        [⟨1, "T1"⟩], []⟩).filter
      (fun ch => strContains ch.content "\n\nTable:\nT1")).length = 2 ∧
    ((chunk_by_sections ⟨[⟨1, "1.1 Alpha\n2.2 Beta\nSolar body text."⟩],
        [⟨1, "T1"⟩], []⟩).filter
      (fun ch => ch.type = ChunkType.table)).length = 0 := by
  refine ⟨by decide, by decide⟩

/-- C4 amended: in the non-section chunkers, every table and every image
record produces exactly one chunk with `total_chunks = 1` and
`chunk_index = 0`.  In section-aware assembly the invariant holds for image
records — exactly one image chunk per record, with `total_chunks = 1` and
`chunk_index = 0` — but not for tables: table records are not emitted as
chunks of their own, their content being appended to the last chunk of every
section attributing them, so a table's content can appear in several chunks
(see the counterexample). -/
theorem one_chunk_invariant_amended :
    (∀ (tables : List RawItem),
      (chunk_table_content tables).length = tables.length ∧
      ∀ ch ∈ chunk_table_content tables,
        ch.total_chunks = 1 ∧ ch.chunk_index = 0 ∧ ch.type = ChunkType.table) ∧
    (∀ (images : List RawItem),
      (chunk_image_content images).length = images.length ∧
      ∀ ch ∈ chunk_image_content images,
        ch.total_chunks = 1 ∧ ch.chunk_index = 0 ∧ ch.type = ChunkType.image) ∧
    (∀ (c : Content),
      ((chunk_by_sections c).filter (fun ch => ch.type = ChunkType.image)).length =
        c.images.length ∧
      ∀ ch ∈ chunk_by_sections c, ch.type = ChunkType.image →
        ch.total_chunks = 1 ∧ ch.chunk_index = 0) := by
  refine ⟨?_, ?_, ?_⟩
  · intro tables
    constructor
    · simp [chunk_table_content]
    · intro ch hch
      rcases List.mem_map.mp hch with ⟨t, _, rfl⟩
      exact ⟨rfl, rfl, rfl⟩
  · intro images
    constructor
    · simp [chunk_image_content]
    · intro ch hch
      rcases List.mem_map.mp hch with ⟨t, _, rfl⟩
      exact ⟨rfl, rfl, rfl⟩
  · intro c
    constructor
    · unfold chunk_by_sections
      rw [List.filter_flatMap]
      have hpt : ∀ p, (pageChunks c (buildSectionMap c) p).filter
          (fun ch => decide (ch.type = ChunkType.image)) =
            (imagesOn c p).map (imageChunkMk p) :=
        fun p => pageChunks_filter_image c (buildSectionMap c) p
      simp only [hpt]
      rw [length_flatMap_map (sortedPages c) (fun p => imagesOn c p) imageChunkMk]
      exact (flatMap_filter_pages_perm (sortedPages c) c.images (sortedPages_nodup c)
        (fun x hx => page_mem_sortedPages c x hx)).length_eq
    · intro ch hch htype
      rcases List.mem_flatMap.mp hch with ⟨p, _, hmem⟩
      unfold pageChunks at hmem
      rcases List.mem_append.mp hmem with h1 | h1
      · exfalso
        split at h1
        · exact noSectionChunks_ne_image c (buildSectionMap c) p ch h1 htype
        · exact sectionsChunks_ne_image c (buildSectionMap c) p _ ch h1 htype
      · rcases List.mem_map.mp h1 with ⟨img, _, rfl⟩
        exact ⟨rfl, rfl⟩

/-- Witness for C4's amended invariant: the image count and the per-chunk
fields at a concrete document. -/
theorem one_chunk_invariant_amended_witness :
    ((chunk_by_sections ⟨[⟨1, "Hello world. More text."⟩], [⟨1, "T1"⟩],
        [⟨1, "IMG"⟩]⟩).filter
      (fun ch => ch.type = ChunkType.image)).length = 1 := by
  have h := (one_chunk_invariant_amended).2.2
    ⟨[⟨1, "Hello world. More text."⟩], [⟨1, "T1"⟩], [⟨1, "IMG"⟩]⟩
  exact h.1.trans (by decide)

/-- Join of a list extended on the right. -/
theorem strJoinSep_concat (sep x : String) (l : List String) :
    strJoinSep sep (l ++ [x]) =
      if l = [] then x else strJoinSep sep l ++ sep ++ x := by
  induction l with
  | nil => simp [strJoinSep]
  | cons a as ih =>
    cases as with
    | nil => simp [strJoinSep]
    | cons b bs =>
      have h3 : ∀ (u v : String) (r : List String),
          strJoinSep sep (u :: v :: r) = u ++ sep ++ strJoinSep sep (v :: r) :=
        fun u v r => rfl
      show strJoinSep sep (a :: (b :: bs ++ [x])) = _
      rw [show (b :: bs ++ [x] : List String) = (b :: bs) ++ [x] from rfl] at *
      cases hbs : (b :: bs) ++ [x] with
      | nil => simp at hbs
      | cons y ys =>
        rw [← hbs, show (a :: ((b :: bs) ++ [x]) : List String) =
          (a :: b :: bs) ++ [x] from rfl]
        have lhs : strJoinSep sep ((a :: b :: bs) ++ [x]) =
            a ++ sep ++ strJoinSep sep ((b :: bs) ++ [x]) := h3 a b (bs ++ [x])
        rw [lhs, ih]
        rw [if_neg (by simp), if_neg (by simp), h3 a b bs]
        simp [String.append_assoc]

/-- Size of a space-join: each of the `n` elements contributes at most
`S` characters plus one separator. -/
theorem strJoinSep_length_le (S : Nat) (m : List String) (hm : m ≠ [])
    (h : ∀ x ∈ m, x.length ≤ S) :
    (strJoinSep " " m).length + 1 ≤ m.length * (S + 1) := by
  induction m with
  | nil => simp at hm
  | cons a as ih =>
    cases as with
    | nil =>
      have := h a (by simp)
      simp [strJoinSep]
      omega
    | cons b bs =>
      have h3 : strJoinSep " " (a :: b :: bs) = a ++ " " ++ strJoinSep " " (b :: bs) := rfl
      have hi := ih (by simp) (fun x hx => h x (by simp [List.mem_cons] at hx ⊢; tauto))
      have ha := h a (by simp)
      rw [h3]
      simp only [String.length_append, List.length_cons] at hi ⊢
      have hsp : (" " : String).length = 1 := rfl
      rw [hsp]
      ring_nf
      ring_nf at hi
      omega

/-- Tail of a right extension. -/
theorem tail_append_singleton (l : List α) (x : α) (h : l ≠ []) :
    (l ++ [x]).tail = l.tail ++ [x] := by
  cases l with
  | nil => exact absurd rfl h
  | cons a as => simp

/-- Elements of a positive-depth drop lie in the tail. -/
theorem mem_tail_of_mem_drop (l : List α) (d : Nat) (hd : 1 ≤ d) (x : α)
    (hx : x ∈ l.drop d) : x ∈ l.tail := by
  obtain ⟨e, rfl⟩ : ∃ e, d = e + 1 := ⟨d - 1, by omega⟩
  cases l with
  | nil => simp at hx
  | cons a as =>
    rw [List.drop_succ_cons] at hx
    exact List.mem_of_mem_drop hx

/-- The emission branch of `chunkStep`, written out. -/
theorem chunkStep_eq_pos (cs ov : Nat) (st : ChunkState) (s : String)
    (h : st.len + s.length > cs ∧ st.buf ≠ []) :
    chunkStep cs ov st s =
      { chunks := st.chunks ++ [strJoinSep " " st.buf],
        buf := if chunkOverlapText ov st.buf ≠ ""
          then [chunkOverlapText ov st.buf, s] else [s],
        len := (strJoinSep " " (if chunkOverlapText ov st.buf ≠ ""
          then [chunkOverlapText ov st.buf, s] else [s])).length } := by
  simp only [chunkStep, if_pos h]

/-- The accumulation branch of `chunkStep`, written out. -/
theorem chunkStep_eq_neg (cs ov : Nat) (st : ChunkState) (s : String)
    (h : ¬(st.len + s.length > cs ∧ st.buf ≠ [])) :
    chunkStep cs ov st s =
      { chunks := st.chunks, buf := st.buf ++ [s],
        len := st.len + s.length + 1 } := by
  simp only [chunkStep, if_neg h]

/-- One step of `chunk_text` preserves the size invariant (the overlap
taken as a multiple of 50, so that the slice count and the guard agree). -/
theorem chunkStep_inv (cs k S : Nat) (hk : 1 ≤ k) (sents : List String)
    (hS : ∀ x ∈ sents, x.length ≤ S) (st : ChunkState) (s : String)
    (hs : s ∈ sents) (hinv : chunkInv (max (cs + 1) (k * (S + 1) + S)) sents st) :
    chunkInv (max (cs + 1) (k * (S + 1) + S)) sents
      (chunkStep cs (50 * k) st s) := by
  obtain ⟨ha, hb, hc, hd, he⟩ := hinv
  have hkS : S ≤ k * (S + 1) + S := by nlinarith
  have hsS : s.length ≤ S := hS s hs
  by_cases hcond : st.len + s.length > cs ∧ st.buf ≠ []
  · rw [chunkStep_eq_pos cs (50 * k) st s hcond]
    have hlast : st.buf.getLastD "" ∈ sents := he.resolve_left hcond.2
    have hdiv : (50 * k) / 50 = k := Nat.mul_div_cancel_left k (by norm_num)
    have hslice : pySliceFrom (overlapSliceStart (50 * k)) st.buf =
        st.buf.drop (st.buf.length - k) := by
      rw [pySlice_overlap (50 * k) st.buf (by omega)]
      congr 1
      have h49 : (50 * k + 49) / 50 = k := by
        rw [Nat.add_comm, Nat.add_mul_div_left 49 k (by norm_num)]
        norm_num
      rw [h49]
    have hotlen : (chunkOverlapText (50 * k) st.buf).length + 1 ≤ k * (S + 1) := by
      unfold chunkOverlapText
      by_cases hg : st.buf.length > (50 * k) / 50
      · rw [if_pos hg, hslice]
        rw [hdiv] at hg
        have hlen : (st.buf.drop (st.buf.length - k)).length = k := by
          rw [List.length_drop]
          omega
        have hne : st.buf.drop (st.buf.length - k) ≠ [] := by
          intro hx
          rw [hx] at hlen
          simp at hlen
          omega
        have helem : ∀ x ∈ st.buf.drop (st.buf.length - k), x.length ≤ S := by
          intro x hx
          refine hS x (hd x ?_)
          exact mem_tail_of_mem_drop st.buf _ (by omega) x hx
        have hj := strJoinSep_length_le S _ hne helem
        rw [hlen] at hj
        exact hj
      · rw [if_neg hg]
        have := hS _ hlast
        nlinarith
    have hnewbuf :
        (strJoinSep " " (if chunkOverlapText (50 * k) st.buf ≠ ""
            then [chunkOverlapText (50 * k) st.buf, s] else [s])).length ≤
          max (cs + 1) (k * (S + 1) + S) ∧
        (∀ x ∈ (if chunkOverlapText (50 * k) st.buf ≠ ""
            then [chunkOverlapText (50 * k) st.buf, s] else [s]).tail, x ∈ sents) ∧
        (if chunkOverlapText (50 * k) st.buf ≠ ""
            then [chunkOverlapText (50 * k) st.buf, s] else [s]).getLastD "" ∈ sents := by
      by_cases hot2 : chunkOverlapText (50 * k) st.buf ≠ ""
      · rw [if_pos hot2]
        refine ⟨?_, ?_, ?_⟩
        · have hj : strJoinSep " " [chunkOverlapText (50 * k) st.buf, s] =
              chunkOverlapText (50 * k) st.buf ++ " " ++ s := rfl
          rw [hj]
          simp only [String.length_append]
          have hsp : (" " : String).length = 1 := rfl
          rw [hsp]
          omega
        · intro x hx
          simp at hx
          rw [hx]
          exact hs
        · simp [hs]
      · rw [if_neg hot2]
        refine ⟨?_, ?_, ?_⟩
        · have hj : strJoinSep " " [s] = s := rfl
          rw [hj]
          omega
        · intro x hx
          simp at hx
        · simp [hs]
    refine ⟨?_, hnewbuf.1, Nat.le_refl _, hnewbuf.2.1, Or.inr hnewbuf.2.2⟩
    intro ch hch
    rcases List.mem_append.mp hch with h1 | h1
    · exact ha ch h1
    · simp at h1
      rw [h1]
      exact hb
  · rw [chunkStep_eq_neg cs (50 * k) st s hcond]
    have hj : strJoinSep " " (st.buf ++ [s]) =
        if st.buf = [] then s else strJoinSep " " st.buf ++ " " ++ s :=
      strJoinSep_concat " " s st.buf
    refine ⟨ha, ?_, ?_, ?_, ?_⟩
    · show (strJoinSep " " (st.buf ++ [s])).length ≤ _
      rw [hj]
      by_cases hbuf : st.buf = []
      · rw [if_pos hbuf]
        omega
      · rw [if_neg hbuf]
        have hlen : st.len + s.length ≤ cs := by
          by_contra hcontra
          exact hcond ⟨by omega, hbuf⟩
        simp only [String.length_append]
        have hsp : (" " : String).length = 1 := rfl
        rw [hsp]
        omega
    · show (strJoinSep " " (st.buf ++ [s])).length ≤ st.len + s.length + 1
      rw [hj]
      by_cases hbuf : st.buf = []
      · rw [if_pos hbuf]
        omega
      · rw [if_neg hbuf]
        simp only [String.length_append]
        have hsp : (" " : String).length = 1 := rfl
        rw [hsp]
        omega
    · show ∀ x ∈ (st.buf ++ [s]).tail, x ∈ sents
      by_cases hbuf : st.buf = []
      · rw [hbuf]
        intro x hx
        simp at hx
      · rw [tail_append_singleton st.buf s hbuf]
        intro x hx
        rcases List.mem_append.mp hx with h1 | h1
        · exact hd x h1
        · simp at h1
          rw [h1]
          exact hs
    · right
      show (st.buf ++ [s]).getLastD "" ∈ sents
      rw [List.getLastD_concat]
      exact hs

/-- The size invariant is preserved along the whole sentence fold. -/
theorem foldl_chunkStep_inv (cs k S : Nat) (hk : 1 ≤ k) (sents : List String)
    (hS : ∀ x ∈ sents, x.length ≤ S) :
    ∀ (l : List String), (∀ x ∈ l, x ∈ sents) →
      ∀ (st : ChunkState), chunkInv (max (cs + 1) (k * (S + 1) + S)) sents st →
        chunkInv (max (cs + 1) (k * (S + 1) + S)) sents
          (l.foldl (chunkStep cs (50 * k)) st) := by
  intro l
  induction l with
  | nil =>
    intro _ st h
    simpa using h
  | cons s rest ih =>
    intro hmem st h
    simp only [List.foldl_cons]
    exact ih (fun x hx => hmem x (by simp [hx]))
      (chunkStep cs (50 * k) st s)
      (chunkStep_inv cs k S hk sents hS st s (hmem s (by simp)) h)

/-- C5 counterexample: with `chunk_size = 5` and `overlap = 100`, every
sentence of `"abcd. abcd. abcd."` has length 5, yet the second emitted chunk
is `"abcd. abcd."` of length 11 > 5 + 5 — the overlap seed is not
size-checked, so the claimed bound `chunk_size` plus one sentence fails. -/
theorem chunk_size_bound_counterexample :
    chunk_text "abcd. abcd. abcd." 5 100 = ["abcd.", "abcd. abcd.", "abcd. abcd."] ∧
    (sentences "abcd. abcd. abcd.").all (fun s => s.length ≤ 5) = true ∧
    5 + 5 < ((chunk_text "abcd. abcd. abcd." 5 100).getD 1 "").length := by
  refine ⟨by decide, by decide, by decide⟩

/-- C5 amended: the claimed bound `chunk_size` plus one sentence does not
hold, because the overlap-seeded buffer is emitted without a size check.
The provable bound, for an overlap that is a positive multiple of 50 (so
that the slice count `-overlap//50` and the guard `overlap//50` agree) and
sentences of length at most `S`: every chunk of
`chunk_text text chunk_size (50*k)` has length at most
`max (chunk_size + 1) (k*(S+1) + S)` — the first branch for buffers grown
sentence-by-sentence under the size check, the second for a freshly seeded
buffer of `k` carried sentences plus the triggering sentence.  (Only
`overlap = 0` carries the entire previous buffer forward — the slice start
`-0//50` is `0` — allowing unbounded growth; for `1 ≤ overlap ≤ 49` the
slice `-overlap//50 = -1` carries just the last sentence.) -/
theorem chunk_text_size_bound (text : String) (cs k S : Nat) (hk : 1 ≤ k)
    (hS : ∀ x ∈ sentences text, x.length ≤ S) :
    ∀ ch ∈ chunk_text text cs (50 * k),
      ch.length ≤ max (cs + 1) (k * (S + 1) + S) := by
  intro ch hch
  have h0 : chunkInv (max (cs + 1) (k * (S + 1) + S)) (sentences text) ⟨[], [], 0⟩ := by
    refine ⟨by simp, ?_, ?_, by simp, Or.inl rfl⟩
    · show (strJoinSep " " []).length ≤ _
      simp [strJoinSep]
    · show (strJoinSep " " []).length ≤ 0
      simp [strJoinSep]
  have hinv := foldl_chunkStep_inv cs k S hk (sentences text) hS (sentences text)
    (fun x hx => hx) ⟨[], [], 0⟩ h0
  unfold chunk_text at hch
  obtain ⟨ha, hb, _, _, _⟩ := hinv
  by_cases hbuf : ((sentences text).foldl (chunkStep cs (50 * k)) ⟨[], [], 0⟩).buf ≠ []
  · rw [if_pos hbuf] at hch
    rcases List.mem_append.mp hch with h1 | h1
    · exact ha ch h1
    · simp at h1
      rw [h1]
      exact hb
  · rw [if_neg hbuf] at hch
    exact ha ch hch

/-- Witness for C5's amended bound at a concrete input: `k = 1`, `S = 3`,
`chunk_size = 5`. -/
theorem chunk_text_size_bound_witness :
    ("ab. cd." : String).length ≤ max (5 + 1) (1 * (3 + 1) + 3) := by
  refine chunk_text_size_bound "ab. cd." 5 1 3 (by decide) (by decide)
    "ab. cd." ?_
  decide

end SolarRAG
